import Mathlib

/-!
# midas: request-logging middleware (logger.go)

A shallow embedding of `logger.go` and the properties of its specification.

Conventions of the embedding

* A Go `string` and a Go `[]byte` are both a sequence of bytes; a byte is a
  natural number below 256 (`Bytes := List Nat`).  `append(b, x...)` is list
  append: the value of the result does not depend on whether the backing array
  had room or was reallocated.
* Go's `int` is an `Int` in the range of 64 bits; where the program computes
  with it, the result wraps around (`wrapInt`).
* A Go panic is the result `none`.
* What the program reads from its environment is an explicit argument: the
  clock readings (`time.Now()`, `time.Since(t)`), the behaviour of the wrapped
  `http.ResponseWriter`, the result of `r.BasicAuth()`, and the handler `next`.
* The package variable `sink` and the writes issued to the sinks are carried in
  an explicit `State`.
-/

namespace Midas

/-! ## Bytes -/

/-- A Go byte sequence (`string` or `[]byte`). -/
abbrev Bytes := List Nat

/-- The bytes of an ASCII literal. -/
def ascii (s : String) : Bytes := s.toList.map Char.toNat

/-- Source: `pipe = byte('|')`. -/
def pipe : Nat := 0x7C

/-- Source: `void = byte('-')`. -/
def void : Nat := 0x2D

/-- Source: `deli = []byte{' ', pipe, ' '}`. -/
def deli : Bytes := [0x20, pipe, 0x20]

/-- Source: `zero = []byte("0.000")`. -/
def zero : Bytes := ascii "0.000"

/-! ## concat -/

/-- Source: `escPool.New`, a fresh `[0x80]byte`. -/
def escNew : Bytes := List.replicate 0x80 0

/-- Go's builtin `copy(dst, src)`: the first `min(len dst, len src)` elements of
`dst` are overwritten with those of `src`; that count is returned. -/
def copy (dst src : Bytes) : Bytes × Nat :=
  let num := min dst.length src.length
  (src.take num ++ dst.drop num, num)

/-- The loop of `concat`, `for i < num`, with `left` iterations to go
(`left = num - i`). -/
def concatLoop (buf : Bytes) : Nat → Nat → Bytes → Bytes
  | 0, _, b => b
  | left + 1, i, b =>
    if buf.getD i 0 < 0x20 ∨ buf.getD i 0 > 0x7E ∨ buf.getD i 0 = pipe then
      concatLoop buf left (i + 1) (b ++ [0x2E])
    else
      concatLoop buf left (i + 1) (b ++ [buf.getD i 0])

/-- Source: `concat`, with the array borrowed from `escPool` as the explicit
argument `esc` (a pooled array holds whatever its last user left in it). -/
def concatWith (esc : Bytes) (b : Bytes) (s : Bytes) : Bytes :=
  let buf := (copy esc s).1
  let num := (copy esc s).2
  concatLoop buf num 0 b

/-- Source: `concat`, on a fresh array of the pool. -/
def concat (b : Bytes) (s : Bytes) : Bytes := concatWith escNew b s

/-! ## Decimal digits -/

/-- The digit loop shared by `strconv.AppendInt` and `time.appendInt`:
`for u >= 10 { q := u / 10; buf[i] = '0' + u - q*10; u = q }; buf[i] = '0' + u`,
with `fuel` bounding the number of iterations (`u ≤ fuel` suffices). -/
def digitsLoop : Nat → Nat → Bytes → Bytes
  | 0, u, acc => (0x30 + u) :: acc
  | fuel + 1, u, acc =>
    if u ≥ 10 then digitsLoop fuel (u / 10) ((0x30 + (u - u / 10 * 10)) :: acc)
    else (0x30 + u) :: acc

/-- The decimal digits of `u`, most significant first. -/
def natDigits (u : Nat) : Bytes := digitsLoop u u []

/-- What `strconv.AppendInt(b, i, 10)` appends: a minus sign for a negative
value, then the digits. -/
def formatInt (i : Int) : Bytes :=
  if i < 0 then 0x2D :: natDigits i.natAbs else natDigits i.natAbs

/-- Library: `strconv.AppendInt(b, i, 10)`. -/
def AppendInt (b : Bytes) (i : Int) : Bytes := b ++ formatInt i

/-! ## time.Time and the RFC3339 layout -/

/-- A `time.Time`, by what its presentation reads: the date, the clock and the
zone offset (seconds east of UTC). -/
structure Time where
  year : Int
  month : Nat
  day : Nat
  hour : Nat
  minute : Nat
  second : Nat
  offset : Int

/-- What `time.appendInt(b, x, width)` appends: sign, zero padding up to
`width` digits, digits. -/
def padInt (x : Int) (width : Nat) : Bytes :=
  (if x < 0 then [0x2D] else []) ++
    List.replicate (width - (natDigits x.natAbs).length) 0x30 ++ natDigits x.natAbs

/-- The zone of layout element `Z07:00`: `Z` for offset 0, else sign, hours,
colon, minutes of the offset converted to minutes (truncating division). -/
def formatZone (offset : Int) : Bytes :=
  if offset = 0 then [0x5A]
  else
    let zone := offset.tdiv 60
    if zone < 0 then [0x2D] ++ padInt ((-zone).tdiv 60) 2 ++ [0x3A] ++ padInt ((-zone).tmod 60) 2
    else [0x2B] ++ padInt (zone.tdiv 60) 2 ++ [0x3A] ++ padInt (zone.tmod 60) 2

/-- The text of `t` in layout `time.RFC3339` (`2006-01-02T15:04:05Z07:00`). -/
def RFC3339 (t : Time) : Bytes :=
  padInt t.year 4 ++ [0x2D] ++ padInt t.month 2 ++ [0x2D] ++ padInt t.day 2 ++ [0x54] ++
    padInt t.hour 2 ++ [0x3A] ++ padInt t.minute 2 ++ [0x3A] ++ padInt t.second 2 ++
    formatZone t.offset

/-- Library: `t.AppendFormat(b, time.RFC3339)`. -/
def Time.AppendFormat (t : Time) (b : Bytes) : Bytes := b ++ RFC3339 t

/-! ## float64 values of durations

A finite binary64 value is kept exactly, as sign and magnitude `mant / 2 ^ scale`.
-/

/-- A finite binary64 value: `(-1)^neg * mant / 2^scale`. -/
structure F64 where
  neg : Bool
  mant : Nat
  scale : Nat

/-- The natural number nearest to `num / den`, ties to even. -/
def roundHalfEven (num den : Nat) : Nat :=
  let q := num / den
  let r := num % den
  if 2 * r < den then q
  else if den < 2 * r then q + 1
  else if q % 2 = 0 then q else q + 1

/-- The search for the scale of `f64Round`: the least `k` from the given one
on with `2 ^ 52 ≤ num / den * 2 ^ k`, looked for in at most `fuel` steps. -/
def scaleLoop (num den : Nat) : Nat → Nat → Nat
  | 0, k => k
  | fuel + 1, k => if num * 2 ^ k < 2 ^ 52 * den then scaleLoop num den fuel (k + 1) else k

/-- The binary64 nearest to the positive rational `num / den` (ties to even),
for a value below `2 ^ 53`: the scale `k` puts `num / den * 2 ^ k` in
`[2 ^ 52, 2 ^ 53)`, the mantissa is that number rounded. -/
def f64Round (num den : Nat) : Nat × Nat :=
  if num = 0 then (0, 0)
  else
    let k := scaleLoop num den (53 + den) 0
    (roundHalfEven (num * 2 ^ k) den, k)

/-- Library: `Duration.Seconds`, `float64(sec) + float64(nsec)/1e9` with
`sec := d / Second` and `nsec := d % Second`; `d` is in nanoseconds.  Quotient
and remainder truncate, and rounding is symmetric, so the magnitude is computed
on `|d|`. -/
def Seconds (d : Int) : F64 :=
  let sec := d.natAbs / 1000000000
  let nsec := d.natAbs % 1000000000
  let q := f64Round nsec 1000000000
  let v := f64Round (sec * 2 ^ q.2 + q.1) (2 ^ q.2)
  { neg := decide (d < 0), mant := v.1, scale := v.2 }

/-- The constant `.001` as a float64. -/
def milli : F64 :=
  { neg := false, mant := (f64Round 1 1000).1, scale := (f64Round 1 1000).2 }

/-- The comparison `x >= y` of float64 values, for a positive `y`. -/
def F64.ge (x y : F64) : Bool :=
  !x.neg && decide (y.mant * 2 ^ x.scale ≤ x.mant * 2 ^ y.scale)

/-- Three digits, zero padded. -/
def pad3 (n : Nat) : Bytes :=
  List.replicate (3 - (natDigits n).length) 0x30 ++ natDigits n

/-- What `strconv.AppendFloat(b, d, 'f', 3, 64)` appends for a non-negative
`d`: the exact value rounded to thousandths (ties to even), as integer part,
point and three digits. -/
def formatFloat3 (d : F64) : Bytes :=
  let n := roundHalfEven (d.mant * 1000) (2 ^ d.scale)
  (if d.neg then [0x2D] else []) ++ natDigits (n / 1000) ++ [0x2E] ++ pad3 (n % 1000)

/-- Library: `strconv.AppendFloat(b, d, 'f', 3, 64)`. -/
def AppendFloat3 (b : Bytes) (d : F64) : Bytes := b ++ formatFloat3 d

/-! ## net/http: header, request, response writer -/

/-- An `http.Header`, `map[string][]string`.  A value is a Go slice: `none` is
the nil slice, `some []` an empty slice that is not nil. -/
abbrev Header := List (String × Option (List Bytes))

/-- The map index `h[key]`: the value of the key, the nil slice when the key is
absent. -/
def Header.get : Header → String → Option (List Bytes)
  | [], _ => none
  | (k, v) :: rest, key => if k = key then v else Header.get rest key

/-- A `tls.ConnectionState`: the two fields the logger reads (`uint16` codes). -/
structure ConnectionState where
  Version : Nat
  CipherSuite : Nat

/-- A `url.URL`: the field the logger reads. -/
structure URL where
  Path : Bytes

/-- An `http.Request`: the fields the logger reads, and the result of the
library method `r.BasicAuth()` (user name and password when `ok`). -/
structure Request where
  Method : Bytes
  URL : URL
  Proto : Bytes
  Header : Header
  RemoteAddr : Bytes
  TLS : Option ConnectionState
  BasicAuth : Option (Bytes × Bytes)

/-- A Go `error`: nil, or a message. -/
abbrev GoError := Option String

/-- A call received by the wrapped `http.ResponseWriter`. -/
inductive Call where
  | WriteHeader (code : Int)
  | Write (buf : Bytes)
  | Flush
  | Header
deriving DecidableEq, Repr

/-- The wrapped `http.ResponseWriter`: what its `Write` and `Header` return,
given the calls it has received before, and whether it is an `http.Flusher`. -/
structure ResponseWriter where
  Write : List Call → Bytes → Int × GoError
  Header : List Call → Header
  flusher : Bool

/-- Source: `type responseWriter struct { wrap; code; sent }`.  `calls` is the
state of `wrap`: the calls forwarded to it so far. -/
structure responseWriter where
  wrap : ResponseWriter
  calls : List Call
  code : Int
  sent : Int

/-- Source: `func (w *responseWriter) Header() http.Header`. -/
def responseWriter.Header (w : responseWriter) : Header × responseWriter :=
  (w.wrap.Header w.calls, { w with calls := w.calls ++ [Call.Header] })

/-- Source: `func (w *responseWriter) WriteHeader(code int)`. -/
def responseWriter.WriteHeader (w : responseWriter) (code : Int) : responseWriter :=
  { w with code := code, calls := w.calls ++ [Call.WriteHeader code] }

/-- The value of an `int` computation: the exact result brought back into
`[-2^63, 2^63)` by two's complement wrap-around (`int` has 64 bits). -/
def wrapInt (x : Int) : Int := (x + 2 ^ 63) % 2 ^ 64 - 2 ^ 63

/-- Source: `func (w *responseWriter) Write(buf []byte) (int, error)`; the
addition `w.sent += num` is an `int` addition. -/
def responseWriter.Write (w : responseWriter) (buf : Bytes) :
    responseWriter × Int × GoError :=
  let w1 := if w.code = 0 then w.WriteHeader 200 else w
  let res := w1.wrap.Write w1.calls buf
  ({ w1 with sent := wrapInt (w1.sent + res.1), calls := w1.calls ++ [Call.Write buf] },
    res.1, res.2)

/-- Source: `func (w *responseWriter) Flush()`. -/
def responseWriter.Flush (w : responseWriter) : responseWriter :=
  if w.wrap.flusher then { w with calls := w.calls ++ [Call.Flush] } else w

/-- An `http.Handler`, by its behaviour towards the response writer it is
given: it returns, panics, or makes a call and goes on according to what the
call returned. -/
inductive Handler where
  | ret : Handler
  | abort : Handler
  | WriteHeader (code : Int) (k : Handler) : Handler
  | Write (buf : Bytes) (k : Int → GoError → Handler) : Handler
  | Flush (k : Handler) : Handler
  | Header (k : Midas.Header → Handler) : Handler

/-- The call `next.ServeHTTP(res, r)`: the observer as the handler leaves it,
`none` when the handler panics. -/
def Handler.ServeHTTP : Handler → responseWriter → Option responseWriter
  | .ret, w => some w
  | .abort, _ => none
  | .WriteHeader code k, w => k.ServeHTTP (w.WriteHeader code)
  | .Write buf k, w => (k (w.Write buf).2.1 (w.Write buf).2.2).ServeHTTP (w.Write buf).1
  | .Flush k, w => k.ServeHTTP w.Flush
  | .Header k, w => (k w.Header.1).ServeHTTP w.Header.2

/-! ## The name tables -/

/-- Source: `tlsVersion`. -/
def tlsVersion : List (Nat × String) :=
  [(0x0300, "SSLv3.0"), (0x0301, "TLSv1.0"), (0x0302, "TLSv1.1"),
   (0x0303, "TLSv1.2"), (0x0304, "TLSv1.3"), (0x0305, "TLSv1.4")]

/-- Source: `cipherSuite`. -/
def cipherSuite : List (Nat × String) :=
  [(0x0005, "RSA-RC4-128-SHA"), (0x000a, "RSA-3DES-EDE-CBC-SHA"),
   (0x002f, "RSA-AES128-CBC-SHA"), (0x0035, "RSA-AES256-CBC-SHA"),
   (0x003c, "RSA-AES128-CBC-SHA256"), (0x009c, "RSA-AES128-GCM-SHA256"),
   (0x009d, "RSA-AES256-GCM-SHA384"),
   (0xc007, "ECDHE-ECDSA-RC4-128-SHA"), (0xc009, "ECDHE-ECDSA-AES128-CBC-SHA"),
   (0xc00a, "ECDHE-ECDSA-AES256-CBC-SHA"), (0xc011, "ECDHE-RSA-RC4-128-SHA"),
   (0xc012, "ECDHE-RSA-3DES-EDE-CBC-SHA"), (0xc013, "ECDHE-RSA-AES128-CBC-SHA"),
   (0xc014, "ECDHE-RSA-AES256-CBC-SHA"), (0xc023, "ECDHE-ECDSA-AES128-CBC-SHA256"),
   (0xc027, "ECDHE-RSA-AES128-CBC-SHA256"), (0xc02f, "ECDHE-RSA-AES128-GCM-SHA256"),
   (0xc02b, "ECDHE-ECDSA-AES128-GCM-SHA256"), (0xc030, "ECDHE-RSA-AES256-GCM-SHA384"),
   (0xc02c, "ECDHE-ECDSA-AES256-GCM-SHA384"), (0xcca8, "ECDHE-RSA-CHACHA20-POLY1305"),
   (0xcca9, "ECDHE-ECDSA-CHACHA20-POLY1305"),
   (0x1301, "AES128-GCM-SHA256"), (0x1302, "AES256-GCM-SHA384"),
   (0x1303, "CHACHA20-POLY1305-SHA256")]

/-- The map index `s, ok := table[code]`. -/
def tableGet : List (Nat × String) → Nat → Option String
  | [], _ => none
  | (k, v) :: rest, code => if k = code then some v else tableGet rest code

/-! ## The field extractors -/

/-- Source: `appendAccessTime`. -/
def appendAccessTime (b : Bytes) (t : Time) : Bytes :=
  b ++ t.AppendFormat b ++ deli

/-- The loop of `appendRemoteAddr`, `for i := len - 1; i >= 0; i--`, entered
with `i + 1`: the index of the first colon found. -/
def colonScan (addr : Bytes) : Nat → Option Nat
  | 0 => none
  | i + 1 => if addr.getD i 0 = 0x3A then some i else colonScan addr i

/-- Source: `appendRemoteAddr`. -/
def appendRemoteAddr (b : Bytes) (r : Request) : Bytes :=
  match colonScan r.RemoteAddr r.RemoteAddr.length with
  | some i => b ++ r.RemoteAddr.take i ++ deli
  | none => b ++ r.RemoteAddr ++ deli

/-- Source: `appendRemoteUser`. -/
def appendRemoteUser (b : Bytes) (r : Request) : Bytes :=
  match r.BasicAuth with
  | some (s, _) => concat b s ++ deli
  | none => b ++ [void] ++ deli

/-- Source: `appendRequest`. -/
def appendRequest (b : Bytes) (r : Request) : Bytes :=
  let b1 := b ++ r.Method ++ [0x20]
  let b2 := concat b1 r.URL.Path ++ [0x20]
  b2 ++ r.Proto ++ deli

/-- Source: `appendStatus`. -/
def appendStatus (b : Bytes) (log : responseWriter) : Bytes :=
  AppendInt b log.code ++ deli

/-- The header extractors' common body, for the value `s` of the header:
`if s != nil { return append(concat(b, s[0]), deli...) }`, else the void byte.
The index `s[0]` panics on an empty slice. -/
def appendHeader (b : Bytes) (s : Option (List Bytes)) : Option Bytes :=
  match s with
  | some vs =>
    match vs with
    | v :: _ => some (concat b v ++ deli)
    | [] => none
  | none => some (b ++ [void] ++ deli)

/-- Source: `appendReferer`. -/
def appendReferer (b : Bytes) (r : Request) : Option Bytes :=
  appendHeader b (r.Header.get "Referer")

/-- Source: `appendForwardedFor`. -/
def appendForwardedFor (b : Bytes) (r : Request) : Option Bytes :=
  appendHeader b (r.Header.get "X-Forwarded-For")

/-- Source: `appendUserAgent`. -/
def appendUserAgent (b : Bytes) (r : Request) : Option Bytes :=
  appendHeader b (r.Header.get "User-Agent")

/-- Source: `appendSSLProtocol`. -/
def appendSSLProtocol (b : Bytes) (r : Request) : Bytes :=
  match r.TLS with
  | some t =>
    match tableGet tlsVersion t.Version with
    | some s => b ++ ascii s ++ deli
    | none => b ++ [void] ++ deli
  | none => b ++ [void] ++ deli

/-- Source: `appendSSLCipher`. -/
def appendSSLCipher (b : Bytes) (r : Request) : Bytes :=
  match r.TLS with
  | some t =>
    match tableGet cipherSuite t.CipherSuite with
    | some s => b ++ ascii s ++ deli
    | none => b ++ [void] ++ deli
  | none => b ++ [void] ++ deli

/-- Source: `appendBytesSent`. -/
def appendBytesSent (b : Bytes) (log : responseWriter) : Bytes :=
  AppendInt b log.sent ++ deli

/-- Source: `appendRequestTime`; `since` is the reading `time.Since(t)`, in
nanoseconds. -/
def appendRequestTime (b : Bytes) (since : Int) : Bytes :=
  if (Seconds since).ge milli then AppendFloat3 b (Seconds since) ++ deli
  else b ++ zero ++ deli

/-- Source: `appendRequestID`. -/
def appendRequestID (b : Bytes) (r : Request) : Option Bytes :=
  appendHeader b (r.Header.get "X-Request-Id")

/-! ## The middleware -/

/-- An `io.Writer` used as sink, by identity. -/
abbrev Sink := Nat

/-- The package variable `sink` (nil until `Logger` is called) and the writes
issued to the sinks so far, in order. -/
structure State where
  sink : Option Sink
  out : List (Sink × Bytes)

/-- The thirteen extractors in the order of `newHandlerFunc`, from `buf[:0]`. -/
def appendFields (r : Request) (res : responseWriter) (now : Time) (since : Int) :
    Option Bytes := do
  let b : Bytes := []
  let b := appendAccessTime b now
  let b := appendRemoteAddr b r
  let b := appendRemoteUser b r
  let b := appendRequest b r
  let b := appendStatus b res
  let b ← appendReferer b r
  let b ← appendForwardedFor b r
  let b ← appendUserAgent b r
  let b := appendSSLProtocol b r
  let b := appendSSLCipher b r
  let b := appendBytesSent b res
  let b := appendRequestTime b since
  appendRequestID b r

/-- The end of `newHandlerFunc`: `n := len(b) - len(deli); b[n] = 0x0a`, and the
slice `b[:n+1]` that goes to the sink.  The index panics out of range. -/
def terminate (b : Bytes) : Option Bytes :=
  let n : Int := (b.length : Int) - (deli.length : Int)
  if 0 ≤ n ∧ n < b.length then some ((b.set n.toNat 0x0a).take (n.toNat + 1)) else none

/-- The line of one request: the fields, terminated. -/
def logLine (r : Request) (res : responseWriter) (now : Time) (since : Int) : Option Bytes :=
  (appendFields r res now since).bind terminate

/-- The function value an `http.HandlerFunc` wraps, with its environment
explicit: the state before, the wrapped writer, the request, the clock readings
`time.Now()` and `time.Since(now)`; it gives the state after and the observer. -/
abbrev HandlerFunc :=
  State → ResponseWriter → Request → Time → Int → Option (State × responseWriter)

/-- The observer that `newHandlerFunc` creates: `&responseWriter{wrap: w}`. -/
def observe (w : ResponseWriter) : responseWriter :=
  { wrap := w, calls := [], code := 0, sent := 0 }

/-- Source: `newHandlerFunc`. -/
def newHandlerFunc (next : Handler) : HandlerFunc :=
  fun st w r now since =>
    match next.ServeHTTP (observe w) with
    | none => none
    | some res =>
      match logLine r res now since with
      | none => none
      | some line =>
        match st.sink with
        | none => none
        | some sink => some ({ st with out := st.out ++ [(sink, line)] }, res)

/-- Source: `Logger`: it sets the package variable and returns `newHandlerFunc`. -/
def Logger (writer : Sink) (st : State) : (Handler → HandlerFunc) × State :=
  (newHandlerFunc, { st with sink := some writer })

/-! ## Handlers by the calls they make -/

/-- The handler never calls `Write` or `WriteHeader`. -/
def Handler.Silent : Handler → Prop
  | .ret => True
  | .abort => True
  | .WriteHeader _ _ => False
  | .Write _ _ => False
  | .Flush k => k.Silent
  | .Header k => ∀ h, (k h).Silent

/-- The handler never calls `WriteHeader`. -/
def Handler.NoWriteHeader : Handler → Prop
  | .ret => True
  | .abort => True
  | .WriteHeader _ _ => False
  | .Write _ k => ∀ n e, (k n e).NoWriteHeader
  | .Flush k => k.NoWriteHeader
  | .Header k => ∀ h, (k h).NoWriteHeader

/-- The counts that the calls of `Write` return to the handler, in order, when
the handler runs on the observer `w`. -/
def Handler.counts : Handler → responseWriter → List Int
  | .ret, _ => []
  | .abort, _ => []
  | .WriteHeader code k, w => k.counts (w.WriteHeader code)
  | .Write buf k, w =>
    (w.Write buf).2.1 :: (k (w.Write buf).2.1 (w.Write buf).2.2).counts (w.Write buf).1
  | .Flush k, w => k.counts w.Flush
  | .Header k, w => (k w.Header.1).counts w.Header.2

/-! ## The specification's side: escaping, the record of 13 fields, the line -/

namespace Spec

/-- A byte outside `[0x20, 0x7E]` or equal to the pipe character is replaced by
a period. -/
def esc (c : Nat) : Nat := if c < 0x20 ∨ c > 0x7E ∨ c = 0x7C then 0x2E else c

/-- The escaping rule: at most 128 bytes of the string, each one escaped. -/
def escape (s : Bytes) : Bytes := (s.take 128).map esc

/-- A byte that may stand in a field value: printable and not the pipe. -/
def Clean (c : Nat) : Prop := 0x20 ≤ c ∧ c ≤ 0x7E ∧ c ≠ 0x7C

instance (c : Nat) : Decidable (Clean c) := by unfold Clean; infer_instance

/-- The peer address without its port: what precedes the rightmost colon, the
whole address when it has no colon. -/
def stripPort (addr : Bytes) : Bytes :=
  match addr.reverse.dropWhile (fun c => decide (c ≠ 0x3A)) with
  | [] => addr
  | _ :: pre => pre.reverse

/-- A header field: the first value, escaped, when the header has one; the
placeholder otherwise. -/
def headerValue : Option (List Bytes) → Bytes
  | some (v :: _) => escape v
  | _ => [0x2D]

/-- A TLS field: the name of the code in the table; the placeholder when there
is no TLS state or no such code. -/
def tlsName (table : List (Nat × String)) (code : Option Nat) : Bytes :=
  match code with
  | some c =>
    match tableGet table c with
    | some s => ascii s
    | none => [0x2D]
  | none => [0x2D]

/-- The log record: the ordered tuple of 13 field values. -/
structure Record where
  accessTime : Bytes
  remoteAddr : Bytes
  remoteUser : Bytes
  request : Bytes
  status : Bytes
  referer : Bytes
  forwardedFor : Bytes
  userAgent : Bytes
  sslProtocol : Bytes
  sslCipher : Bytes
  bytesSent : Bytes
  requestTime : Bytes
  requestID : Bytes

/-- The fields of a record in the fixed order. -/
def Record.toList (x : Record) : List Bytes :=
  [x.accessTime, x.remoteAddr, x.remoteUser, x.request, x.status, x.referer,
   x.forwardedFor, x.userAgent, x.sslProtocol, x.sslCipher, x.bytesSent,
   x.requestTime, x.requestID]

/-- The record of a request, of the observer after the handler, and of the
clock readings. -/
def record (r : Request) (res : responseWriter) (now : Time) (since : Int) : Record where
  accessTime := RFC3339 now
  remoteAddr := stripPort r.RemoteAddr
  remoteUser :=
    match r.BasicAuth with
    | some (u, _) => escape u
    | none => [0x2D]
  request := r.Method ++ [0x20] ++ escape r.URL.Path ++ [0x20] ++ r.Proto
  status := formatInt res.code
  referer := headerValue (r.Header.get "Referer")
  forwardedFor := headerValue (r.Header.get "X-Forwarded-For")
  userAgent := headerValue (r.Header.get "User-Agent")
  sslProtocol := tlsName tlsVersion (r.TLS.map fun t => t.Version)
  sslCipher := tlsName cipherSuite (r.TLS.map fun t => t.CipherSuite)
  bytesSent := formatInt res.sent
  requestTime := if (Seconds since).ge milli then formatFloat3 (Seconds since) else ascii "0.000"
  requestID := headerValue (r.Header.get "X-Request-Id")

/-- The line of a record: the fields joined by the delimiter, then a newline. -/
def line (x : Record) : Bytes := deli.intercalate x.toList ++ [0x0a]

/-- A field value with the byte `a` put in front of the first field. -/
def pushHead (a : Nat) : List Bytes → List Bytes
  | [] => [[a]]
  | f :: fs => (a :: f) :: fs

/-- The scan of `splitDeli`: `skip` counts the bytes still to pass over because
they belong to the delimiter just found. -/
def splitScan : Nat → Bytes → List Bytes
  | _, [] => [[]]
  | skip + 1, _ :: rest => splitScan skip rest
  | 0, a :: rest =>
    if deli.isPrefixOf (a :: rest) then [] :: splitScan 2 rest
    else pushHead a (splitScan 0 rest)

/-- The fields of a text: the text split at each occurrence of the delimiter
`" | "`, from left to right. -/
def splitDeli (text : Bytes) : List Bytes := splitScan 0 text

/-- The number that a text of decimal digits stands for. -/
def decimal (digits : Bytes) : Nat := digits.foldl (fun acc c => acc * 10 + (c - 0x30)) 0

/-- Each of the four logged headers that is present with a slice that is not
nil has a first value. -/
def HeadersOk (r : Request) : Prop :=
  r.Header.get "Referer" ≠ some [] ∧ r.Header.get "X-Forwarded-For" ≠ some [] ∧
    r.Header.get "User-Agent" ≠ some [] ∧ r.Header.get "X-Request-Id" ≠ some []

instance (r : Request) : Decidable (HeadersOk r) := by unfold HeadersOk; infer_instance

end Spec

/-! ## net/http: Basic Authentication -/

/-- Library: the value of a character of the standard base64 alphabet. -/
def b64Value (c : Nat) : Option Nat :=
  if 0x41 ≤ c ∧ c ≤ 0x5A then some (c - 0x41)
  else if 0x61 ≤ c ∧ c ≤ 0x7A then some (c - 0x61 + 26)
  else if 0x30 ≤ c ∧ c ≤ 0x39 then some (c - 0x30 + 52)
  else if c = 0x2B then some 62
  else if c = 0x2F then some 63
  else none

/-- The groups of a base64 text: four characters give three bytes, the last
group may end in one or two `=`; anything else is an error (`none`). -/
def base64Quanta : Bytes → Option Bytes
  | [] => some []
  | a :: b :: c :: d :: rest =>
    match b64Value a, b64Value b with
    | some x, some y =>
      if c = 0x3D ∧ d = 0x3D ∧ rest = [] then some [(x * 4 + y / 16) % 256]
      else
        match b64Value c with
        | some z =>
          if d = 0x3D ∧ rest = [] then some [(x * 4 + y / 16) % 256, (y * 16 + z / 4) % 256]
          else
            match b64Value d, base64Quanta rest with
            | some v, some tl =>
              some ((x * 4 + y / 16) % 256 :: (y * 16 + z / 4) % 256 :: (z * 64 + v) % 256 :: tl)
            | _, _ => none
        | none => none
    | _, _ => none
  | _ => none

/-- Library: `base64.StdEncoding.DecodeString`: carriage returns and line feeds
in the text are passed over, the rest is decoded group by group. -/
def base64Decode (text : Bytes) : Option Bytes :=
  base64Quanta (text.filter fun c => decide (c ≠ 0x0D ∧ c ≠ 0x0A))

/-- The ASCII lower case of a byte. -/
def lowerByte (c : Nat) : Nat := if 0x41 ≤ c ∧ c ≤ 0x5A then c + 0x20 else c

/-- The text up to the first colon and the text after it. -/
def cutColon : Bytes → Option (Bytes × Bytes)
  | [] => none
  | c :: rest =>
    if c = 0x3A then some ([], rest)
    else
      match cutColon rest with
      | some (u, pw) => some (c :: u, pw)
      | none => none

/-- Library: `parseBasicAuth` of net/http: the prefix `Basic `, compared
without regard to case, then the base64 text of `user:password`. -/
def parseBasicAuth (auth : Bytes) : Option (Bytes × Bytes) :=
  if auth.length < 6 ∨ (auth.take 6).map lowerByte ≠ ascii "basic " then none
  else
    match base64Decode (auth.drop 6) with
    | some cs => cutColon cs
    | none => none

/-! ## The fixtures of logger_test.go -/

/-- Test: `testResponseWriter`; `Write` returns `42, nil`, `Header` returns
`Foo: bar`, and it has a `Flush`. -/
def testResponseWriter : ResponseWriter where
  Write := fun _ _ => (42, none)
  Header := fun _ => [("Foo", some [ascii "bar"])]
  flusher := true

/-- A wrapped writer whose `Write` reports the largest `int`, 2^63 - 1, as its
count. -/
def greedyWriter : ResponseWriter where
  Write := fun _ _ => (9223372036854775807, none)
  Header := fun _ => []
  flusher := false

/-- Test: the request of `TestLoggerOutput_1`; the Authorization header
`Basic dXNlcjpwYXNz` decodes to `user:pass`. -/
def request1 : Request where
  Method := ascii "GET"
  URL := { Path := [0xC3, 0xA4] }
  Proto := ascii "HTTP/1.1"
  RemoteAddr := ascii "0.0.0.0:0"
  Header :=
    [("Authorization", some [ascii "Basic dXNlcjpwYXNz"]), ("Referer", some [ascii "b"]),
     ("User-Agent", some [ascii "d"]), ("X-Forwarded-For", some [ascii "c"]),
     ("X-Request-Id", some [[0x7E, 0x7F, 0x80]])]
  TLS := some { Version := 0x0303, CipherSuite := 0xc030 }
  BasicAuth := some (ascii "user", ascii "pass")

/-- Test: the handler of `TestLoggerOutput_1`: `w.Write(nil)`, then
`w.Header()`. -/
def handler1 : Handler := .Write [] (fun _ _ => .Header (fun _ => .ret))

/-- Test: the request of `TestLoggerOutput_2`. -/
def request2 : Request where
  Method := ascii "GET"
  URL := { Path := ascii "a" }
  Proto := ascii "HTTP/1.1"
  RemoteAddr := ascii "0.0.0.0"
  Header := []
  TLS := none
  BasicAuth := none

/-- Test: the handler of `TestLoggerOutput_2`: `w.WriteHeader(42)`, then
`Flush`. -/
def handler2 : Handler := .WriteHeader 42 (.Flush .ret)

/-- A reading of `time.Now()`: 2019-09-05 07:08:09 +02:00. -/
def clock0 : Time where
  year := 2019
  month := 9
  day := 5
  hour := 7
  minute := 8
  second := 9
  offset := 7200

/-- A state in which `Logger` has not been called and nothing is written. -/
def state0 : State := { sink := none, out := [] }

/-- A request as in `BenchmarkLoggerConcatFullLine`, with path and header
values of 128 bytes each. -/
def requestLong : Request where
  Method := ascii "GET"
  URL := { Path := List.replicate 128 0x61 }
  Proto := ascii "HTTP/1.1"
  RemoteAddr := ascii "0.0.0.0:0"
  Header :=
    [("Referer", some [List.replicate 128 0x62]), ("User-Agent", some [List.replicate 128 0x64]),
     ("X-Forwarded-For", some [List.replicate 128 0x63]),
     ("X-Request-Id", some [List.replicate 128 0x65])]
  TLS := some { Version := 0x0303, CipherSuite := 0xc030 }
  BasicAuth := none

set_option maxRecDepth 100000

/-! ## Lemmas on concat -/

theorem concatLoop_eq (buf : Bytes) (left i : Nat) (b : Bytes) :
    concatLoop buf left i b = b ++ ((buf.drop i).take left).map Spec.esc
      ++ List.replicate (left - (buf.length - i)) 0x2E := by
  induction left generalizing i b with
  | zero => simp [concatLoop]
  | succ n ih =>
    unfold concatLoop
    by_cases hi : i < buf.length
    · have hd : buf.drop i = buf[i] :: buf.drop (i + 1) := List.drop_eq_getElem_cons hi
      have hg : buf.getD i 0 = buf[i] := by simp [List.getD_eq_getElem?_getD, hi]
      have hsub : n + 1 - (buf.length - i) = n - (buf.length - (i + 1)) := by omega
      split
      · rename_i hc
        rw [ih, hd, hsub]
        simp only [List.take_succ_cons, List.map_cons, Spec.esc]
        rw [hg] at hc
        simp [pipe] at hc
        simp [hc]
      · rename_i hc
        rw [ih, hd, hsub]
        simp only [List.take_succ_cons, List.map_cons, Spec.esc]
        rw [hg] at hc ⊢
        simp [pipe] at hc
        have h1 : ¬ (buf[i] < 32 ∨ 126 < buf[i]) := by omega
        simp [hc, h1]
    · have hg : buf.getD i 0 = 0 := by
        simp [List.getD_eq_getElem?_getD, List.getElem?_eq_none (Nat.le_of_not_lt hi)]
      have hd : buf.drop i = [] := List.drop_eq_nil_of_le (Nat.le_of_not_lt hi)
      have hd1 : buf.drop (i + 1) = [] := List.drop_eq_nil_of_le (by omega)
      have h1 : n + 1 - (buf.length - i) = (n - (buf.length - (i + 1))) + 1 := by omega
      simp only [hg]
      rw [if_pos (by decide), ih, hd, hd1, h1]
      simp [List.replicate_succ]

theorem copy_fst_take (esc s : Bytes) :
    ((copy esc s).1).take (copy esc s).2 = s.take (min esc.length s.length) := by
  simp only [copy]
  rw [List.take_append_of_le_length (by simp)]
  rw [List.take_take]
  simp

theorem copy_snd_le (esc s : Bytes) : (copy esc s).2 ≤ ((copy esc s).1).length := by
  simp only [copy, List.length_append, List.length_take, List.length_drop]
  omega

theorem concatWith_eq (esc b s : Bytes) :
    concatWith esc b s = b ++ (s.take (min esc.length s.length)).map Spec.esc := by
  unfold concatWith
  rw [concatLoop_eq]
  have h := copy_snd_le esc s
  have h0 : (copy esc s).2 - (((copy esc s).1).length - 0) = 0 := by omega
  rw [h0, List.drop_zero, copy_fst_take]
  simp

theorem concat_eq (b s : Bytes) : concat b s = b ++ Spec.escape s := by
  unfold concat
  rw [concatWith_eq]
  simp only [escNew, List.length_replicate, Spec.escape]
  congr 2
  rcases Nat.le_total 128 s.length with h | h
  · rw [Nat.min_eq_left h]
  · rw [Nat.min_eq_right h, List.take_of_length_le (Nat.le_refl _), List.take_of_length_le h]

theorem esc_clean (c : Nat) : Spec.Clean (Spec.esc c) := by
  unfold Spec.esc Spec.Clean
  split
  · decide
  · omega

theorem esc_of_clean (c : Nat) (h : Spec.Clean c) : Spec.esc c = c := by
  unfold Spec.Clean at h
  unfold Spec.esc
  rw [if_neg (by omega)]

theorem esc_esc (c : Nat) : Spec.esc (Spec.esc c) = Spec.esc c :=
  esc_of_clean _ (esc_clean c)

theorem escape_length_le (s : Bytes) : (Spec.escape s).length ≤ 128 := by
  simp [Spec.escape, List.length_take]

theorem escape_clean (s : Bytes) : ∀ c ∈ Spec.escape s, Spec.Clean c := by
  intro c hc
  simp only [Spec.escape, List.mem_map] at hc
  obtain ⟨a, _, rfl⟩ := hc
  exact esc_clean a

theorem escape_escape (s : Bytes) : Spec.escape (Spec.escape s) = Spec.escape s := by
  have hlen := escape_length_le s
  have h1 : (Spec.escape s).take 128 = Spec.escape s := List.take_of_length_le hlen
  have h2 : (Spec.escape s).map Spec.esc = Spec.escape s := by
    conv_rhs => rw [← List.map_id (Spec.escape s)]
    apply List.map_congr_left
    intro c hc
    exact esc_of_clean c (escape_clean s c hc)
  calc Spec.escape (Spec.escape s)
      = ((Spec.escape s).take 128).map Spec.esc := rfl
    _ = Spec.escape s := by rw [h1, h2]

theorem take_min_length (s : Bytes) (n : Nat) : s.take (min s.length n) = s.take n := by
  rcases Nat.le_total n s.length with h | h
  · rw [Nat.min_eq_right h]
  · rw [Nat.min_eq_left h, List.take_of_length_le (Nat.le_refl _), List.take_of_length_le h]

theorem concatWith_eq_escape (esc b s : Bytes) (hesc : esc.length = 0x80) :
    concatWith esc b s = b ++ Spec.escape s := by
  rw [concatWith_eq, hesc, Nat.min_comm, take_min_length]
  rfl

/-! ## The claims on concat -/

/-- C3: for every array borrowed from the pool, every accumulator `b` and every
string `s`, `concat(b, s)` is `b` followed by the escaped first
`min(len s, 128)` bytes of `s`; a string of at most 128 bytes is appended whole,
byte for byte escaped, and a longer one contributes exactly 128 bytes. -/
theorem C3_concat_appends_escaped_bytes (esc b s : Bytes) (hesc : esc.length = 0x80) :
    concatWith esc b s = b ++ (s.take (min s.length 128)).map Spec.esc ∧
      concat b s = b ++ (s.take (min s.length 128)).map Spec.esc ∧
      (s.length ≤ 128 → concatWith esc b s = b ++ s.map Spec.esc) ∧
      (128 < s.length → (concatWith esc b s).length = b.length + 128) := by
  have h1 : concatWith esc b s = b ++ (s.take (min s.length 128)).map Spec.esc := by
    rw [concatWith_eq_escape esc b s hesc, take_min_length]
    rfl
  refine ⟨h1, ?_, ?_, ?_⟩
  · rw [concat_eq, take_min_length]
    rfl
  · intro hs
    rw [h1, Nat.min_eq_left hs, List.take_of_length_le (Nat.le_refl _)]
  · intro hs
    rw [h1, Nat.min_eq_right (Nat.le_of_lt hs)]
    simp [List.length_take]
    omega

/-- C3, witness: on an array that still holds 128 bytes `A`, the path `ä`
(bytes C3 A4) appended to `GET ` gives `GET ..`. -/
theorem C3_concat_appends_escaped_bytes_witness :
    (List.replicate 0x80 0x41).length = 0x80 ∧
      concatWith (List.replicate 0x80 0x41) (ascii "GET ") [0xC3, 0xA4] = ascii "GET .." := by
  refine ⟨by decide, ?_⟩
  rw [(C3_concat_appends_escaped_bytes (List.replicate 0x80 0x41) (ascii "GET ")
    [0xC3, 0xA4] (by decide)).1]
  decide

/-- C4: every byte that `concat(b, s)` adds after the first `len(b)` bytes lies
in `[0x20, 0x7E]` and differs from the pipe (so it is no newline, no control
byte and no delimiter pipe), and at most 128 bytes are added. -/
theorem C4_concat_adds_clean_bytes (esc b s : Bytes) (hesc : esc.length = 0x80) :
    (concatWith esc b s).take b.length = b ∧
      ((concatWith esc b s).drop b.length).length ≤ 128 ∧
      ∀ c ∈ (concatWith esc b s).drop b.length,
        0x20 ≤ c ∧ c ≤ 0x7E ∧ c ≠ pipe ∧ c ≠ 0x0a := by
  rw [concatWith_eq_escape esc b s hesc]
  refine ⟨by simp, ?_, ?_⟩
  · rw [List.drop_left]
    exact escape_length_le s
  · rw [List.drop_left]
    intro c hc
    have h := escape_clean s c hc
    unfold Spec.Clean at h
    unfold pipe
    omega

/-- C4, witness: a string of 130 newline bytes adds 128 periods. -/
theorem C4_concat_adds_clean_bytes_witness :
    (List.replicate 0x80 0x41).length = 0x80 ∧
      ((concatWith (List.replicate 0x80 0x41) (ascii "a") (List.replicate 130 0x0a)).drop
        (ascii "a").length).length ≤ 128 ∧
      concatWith (List.replicate 0x80 0x41) (ascii "a") (List.replicate 130 0x0a) =
        ascii "a" ++ List.replicate 128 0x2E :=
  ⟨by decide,
   (C4_concat_adds_clean_bytes (List.replicate 0x80 0x41) (ascii "a")
     (List.replicate 130 0x0a) (by decide)).2.1,
   by decide⟩

/-- C5: escaping is idempotent: escaping the escaped form of `s` gives the
escaped form again, whatever arrays the pool hands out. -/
theorem C5_concat_idempotent (e1 e2 s : Bytes) (h1 : e1.length = 0x80)
    (h2 : e2.length = 0x80) :
    concatWith e1 [] (concatWith e2 [] s) = concatWith e2 [] s ∧
      concat [] (concat [] s) = concat [] s := by
  constructor
  · rw [concatWith_eq_escape e2 [] s h2, concatWith_eq_escape e1 _ _ h1]
    simp only [List.nil_append]
    exact escape_escape s
  · rw [concat_eq, concat_eq]
    simp only [List.nil_append]
    exact escape_escape s

/-- C5, witness: the request id of the first test, `~` 7F 80. -/
theorem C5_concat_idempotent_witness :
    concat [] (concat [] [0x7E, 0x7F, 0x80]) = concat [] [0x7E, 0x7F, 0x80] ∧
      concat [] [0x7E, 0x7F, 0x80] = ascii "~.." :=
  ⟨(C5_concat_idempotent escNew escNew [0x7E, 0x7F, 0x80] (by decide) (by decide)).2,
   by decide⟩

/-! ## Lemmas on the observer -/

theorem WriteHeader_code (w : responseWriter) (code : Int) : (w.WriteHeader code).code = code := rfl

theorem WriteHeader_sent (w : responseWriter) (code : Int) : (w.WriteHeader code).sent = w.sent := rfl

theorem Flush_code (w : responseWriter) : w.Flush.code = w.code := by
  unfold responseWriter.Flush
  split <;> rfl

theorem Flush_sent (w : responseWriter) : w.Flush.sent = w.sent := by
  unfold responseWriter.Flush
  split <;> rfl

theorem Write_code_of_ne (w : responseWriter) (buf : Bytes) (h : w.code ≠ 0) :
    (w.Write buf).1.code = w.code := by
  simp [responseWriter.Write, h]

theorem Write_code_of_eq (w : responseWriter) (buf : Bytes) (h : w.code = 0) :
    (w.Write buf).1.code = 200 := by
  simp [responseWriter.Write, h, responseWriter.WriteHeader]

theorem Write_sent (w : responseWriter) (buf : Bytes) :
    (w.Write buf).1.sent = wrapInt (w.sent + (w.Write buf).2.1) := by
  unfold responseWriter.Write
  split <;> rfl

theorem wrapInt_of_inRange (x : Int) (h1 : -(2 ^ 63) ≤ x) (h2 : x < 2 ^ 63) : wrapInt x = x := by
  unfold wrapInt
  omega

theorem wrapInt_inRange (x : Int) : -(2 ^ 63) ≤ wrapInt x ∧ wrapInt x < 2 ^ 63 := by
  unfold wrapInt
  omega

theorem wrapInt_wrapInt (x : Int) : wrapInt (wrapInt x) = wrapInt x :=
  wrapInt_of_inRange _ (wrapInt_inRange x).1 (wrapInt_inRange x).2

theorem wrapInt_add_left (a b : Int) : wrapInt (wrapInt a + b) = wrapInt (a + b) := by
  unfold wrapInt
  omega

theorem ServeHTTP_code_of_noWriteHeader (next : Handler) :
    ∀ (w res : responseWriter), w.code ≠ 0 → next.NoWriteHeader →
      next.ServeHTTP w = some res → res.code = w.code := by
  induction next with
  | ret =>
    intro w res _ _ h
    simp only [Handler.ServeHTTP, Option.some.injEq] at h
    rw [h]
  | abort =>
    intro w res _ _ h
    simp [Handler.ServeHTTP] at h
  | WriteHeader code k _ =>
    intro w res _ hn _
    exact absurd hn (by simp [Handler.NoWriteHeader])
  | Write buf k ih =>
    intro w res hw hn h
    simp only [Handler.ServeHTTP] at h
    simp only [Handler.NoWriteHeader] at hn
    have hc := Write_code_of_ne w buf hw
    rw [ih _ _ _ _ (by rw [hc]; exact hw) (hn _ _) h, hc]
  | Flush k ih =>
    intro w res hw hn h
    simp only [Handler.ServeHTTP] at h
    simp only [Handler.NoWriteHeader] at hn
    rw [ih _ _ (by rw [Flush_code]; exact hw) hn h, Flush_code]
  | Header k ih =>
    intro w res hw hn h
    simp only [Handler.ServeHTTP] at h
    simp only [Handler.NoWriteHeader] at hn
    exact ih _ w.Header.2 res hw (hn _) h

theorem ServeHTTP_silent (next : Handler) :
    ∀ (w res : responseWriter), next.Silent → next.ServeHTTP w = some res →
      res.code = w.code ∧ res.sent = w.sent := by
  induction next with
  | ret =>
    intro w res _ h
    simp only [Handler.ServeHTTP, Option.some.injEq] at h
    rw [h]
    exact ⟨rfl, rfl⟩
  | abort =>
    intro w res _ h
    simp [Handler.ServeHTTP] at h
  | WriteHeader code k _ =>
    intro w res hs _
    exact absurd hs (by simp [Handler.Silent])
  | Write buf k _ =>
    intro w res hs _
    exact absurd hs (by simp [Handler.Silent])
  | Flush k ih =>
    intro w res hs h
    simp only [Handler.ServeHTTP] at h
    simp only [Handler.Silent] at hs
    have := ih _ _ hs h
    rw [Flush_code, Flush_sent] at this
    exact this
  | Header k ih =>
    intro w res hs h
    simp only [Handler.ServeHTTP] at h
    simp only [Handler.Silent] at hs
    exact ih _ w.Header.2 res (hs _) h

theorem ServeHTTP_sent (next : Handler) :
    ∀ (w res : responseWriter), next.ServeHTTP w = some res →
      wrapInt res.sent = wrapInt (w.sent + (next.counts w).sum) := by
  induction next with
  | ret =>
    intro w res h
    simp only [Handler.ServeHTTP, Option.some.injEq] at h
    simp [Handler.counts, h]
  | abort =>
    intro w res h
    simp [Handler.ServeHTTP] at h
  | WriteHeader code k ih =>
    intro w res h
    simp only [Handler.ServeHTTP] at h
    simp only [Handler.counts]
    rw [ih _ _ h, WriteHeader_sent]
  | Write buf k ih =>
    intro w res h
    simp only [Handler.ServeHTTP] at h
    simp only [Handler.counts, List.sum_cons]
    rw [ih _ _ _ _ h, Write_sent, wrapInt_add_left, Int.add_assoc]
  | Flush k ih =>
    intro w res h
    simp only [Handler.ServeHTTP] at h
    simp only [Handler.counts]
    rw [ih _ _ h, Flush_sent]
  | Header k ih =>
    intro w res h
    simp only [Handler.ServeHTTP] at h
    simp only [Handler.counts]
    exact ih _ w.Header.2 res h

theorem ServeHTTP_sent_inRange (next : Handler) :
    ∀ (w res : responseWriter), wrapInt w.sent = w.sent → next.ServeHTTP w = some res →
      wrapInt res.sent = res.sent := by
  induction next with
  | ret =>
    intro w res hw h
    simp only [Handler.ServeHTTP, Option.some.injEq] at h
    rw [← h]
    exact hw
  | abort =>
    intro w res _ h
    simp [Handler.ServeHTTP] at h
  | WriteHeader code k ih =>
    intro w res hw h
    simp only [Handler.ServeHTTP] at h
    exact ih _ _ (by rw [WriteHeader_sent]; exact hw) h
  | Write buf k ih =>
    intro w res _ h
    simp only [Handler.ServeHTTP] at h
    exact ih _ _ _ _ (by rw [Write_sent, wrapInt_wrapInt]) h
  | Flush k ih =>
    intro w res hw h
    simp only [Handler.ServeHTTP] at h
    exact ih _ _ (by rw [Flush_sent]; exact hw) h
  | Header k ih =>
    intro w res hw h
    simp only [Handler.ServeHTTP] at h
    exact ih _ w.Header.2 res hw h

/-! ## Lemmas on the extractors -/

theorem colonScan_append (init : Bytes) (x : Nat) :
    ∀ n, n ≤ init.length → colonScan (init ++ [x]) n = colonScan init n := by
  intro n
  induction n with
  | zero => intro _; rfl
  | succ m ih =>
    intro hm
    have hlt : m < init.length := hm
    have hg : (init ++ [x]).getD m 0 = init.getD m 0 := by
      simp [List.getD_eq_getElem?_getD, List.getElem?_append_left hlt]
    simp only [colonScan, hg, ih (Nat.le_of_lt hlt)]

theorem colonScan_spec (addr : Bytes) :
    (colonScan addr addr.length = none ∧
        addr.reverse.dropWhile (fun c => decide (c ≠ 0x3A)) = []) ∨
      ∃ i pre, colonScan addr addr.length = some i ∧
        addr.reverse.dropWhile (fun c => decide (c ≠ 0x3A)) = 0x3A :: pre ∧
        pre.reverse = addr.take i ∧ i ≤ addr.length := by
  induction addr using List.reverseRecOn with
  | nil => left; exact ⟨rfl, rfl⟩
  | append_singleton init x ih =>
    have hlen : (init ++ [x]).length = init.length + 1 := by simp
    have hg : (init ++ [x]).getD init.length 0 = x := by
      simp [List.getD_eq_getElem?_getD]
    rw [hlen, List.reverse_append, List.reverse_singleton, List.singleton_append]
    by_cases hx : x = 0x3A
    · right
      refine ⟨init.length, init.reverse, ?_, ?_, ?_, by omega⟩
      · simp only [colonScan]
        rw [if_pos (by rw [hg, hx])]
      · rw [List.dropWhile_cons_of_neg (by simp [hx]), hx]
      · simp
    · have hs : colonScan (init ++ [x]) (init.length + 1) = colonScan init init.length := by
        simp only [colonScan]
        rw [if_neg (by rw [hg]; exact hx)]
        exact colonScan_append init x init.length (Nat.le_refl _)
      rw [hs, List.dropWhile_cons_of_pos (by simp [hx])]
      rcases ih with ⟨h1, h2⟩ | ⟨i, pre, h1, h2, h3, h4⟩
      · left; exact ⟨h1, h2⟩
      · right
        refine ⟨i, pre, h1, h2, ?_, by omega⟩
        rw [h3, List.take_append_of_le_length h4]

theorem appendRemoteAddr_eq (b : Bytes) (r : Request) :
    appendRemoteAddr b r = b ++ Spec.stripPort r.RemoteAddr ++ deli := by
  unfold appendRemoteAddr Spec.stripPort
  rcases colonScan_spec r.RemoteAddr with ⟨h1, h2⟩ | ⟨i, pre, h1, h2, h3, _⟩
  · rw [h1, h2]
  · rw [h1, h2]
    simp only [h3]

theorem stripPort_subset (addr : Bytes) : ∀ c ∈ Spec.stripPort addr, c ∈ addr := by
  intro c hc
  unfold Spec.stripPort at hc
  rcases colonScan_spec addr with ⟨_, h2⟩ | ⟨i, pre, _, h2, h3, _⟩
  · rw [h2] at hc
    exact hc
  · rw [h2] at hc
    simp only at hc
    rw [h3] at hc
    exact List.mem_of_mem_take hc

theorem appendRemoteUser_eq (b : Bytes) (r : Request) (res : responseWriter) (now : Time)
    (since : Int) :
    appendRemoteUser b r = b ++ (Spec.record r res now since).remoteUser ++ deli := by
  unfold appendRemoteUser Spec.record
  rcases r.BasicAuth with _ | ⟨u, pw⟩
  · rfl
  · simp only [concat_eq]

theorem appendRequest_eq (b : Bytes) (r : Request) :
    appendRequest b r =
      b ++ (r.Method ++ [0x20] ++ Spec.escape r.URL.Path ++ [0x20] ++ r.Proto) ++ deli := by
  unfold appendRequest
  simp only [concat_eq, List.append_assoc]

theorem appendHeader_eq (b : Bytes) (s : Option (List Bytes)) (h : s ≠ some []) :
    appendHeader b s = some (b ++ Spec.headerValue s ++ deli) := by
  unfold appendHeader Spec.headerValue
  rcases s with _ | vs
  · rfl
  · rcases vs with _ | ⟨v, vs⟩
    · exact absurd rfl h
    · simp only [concat_eq]

theorem appendHeader_empty (b : Bytes) : appendHeader b (some []) = none := rfl

theorem appendSSLProtocol_eq (b : Bytes) (r : Request) :
    appendSSLProtocol b r =
      b ++ Spec.tlsName tlsVersion (r.TLS.map fun t => t.Version) ++ deli := by
  unfold appendSSLProtocol Spec.tlsName
  rcases r.TLS with _ | t
  · rfl
  · simp only [Option.map_some']
    rcases tableGet tlsVersion t.Version with _ | s <;> rfl

theorem appendSSLCipher_eq (b : Bytes) (r : Request) :
    appendSSLCipher b r =
      b ++ Spec.tlsName cipherSuite (r.TLS.map fun t => t.CipherSuite) ++ deli := by
  unfold appendSSLCipher Spec.tlsName
  rcases r.TLS with _ | t
  · rfl
  · simp only [Option.map_some']
    rcases tableGet cipherSuite t.CipherSuite with _ | s <;> rfl

theorem appendRequestTime_eq (b : Bytes) (since : Int) :
    appendRequestTime b since =
      b ++ (if (Seconds since).ge milli then formatFloat3 (Seconds since) else ascii "0.000")
        ++ deli := by
  unfold appendRequestTime AppendFloat3 zero
  split <;> rfl

theorem terminate_append_deli (x : Bytes) : terminate (x ++ deli) = some (x ++ [0x0a]) := by
  unfold terminate
  have hl : (x ++ deli).length = x.length + 3 := by simp [deli]
  have hd : deli.length = 3 := rfl
  have hn : ((x ++ deli).length : Int) - (deli.length : Int) = (x.length : Int) := by
    rw [hl, hd]; push_cast; omega
  simp only [hn]
  rw [if_pos (by rw [hl]; push_cast; omega)]
  simp only [Int.toNat_ofNat, deli]
  congr 1
  rw [List.set_append_right _ _ (Nat.le_refl _)]
  simp [List.take_append_eq_append_take]

/-! ## The line as the record's line -/

theorem appendAccessTime_nil (t : Time) : appendAccessTime [] t = RFC3339 t ++ deli := by
  simp [appendAccessTime, Time.AppendFormat]

theorem line_eq (x : Spec.Record) :
    Spec.line x =
      x.accessTime ++ deli ++ x.remoteAddr ++ deli ++ x.remoteUser ++ deli ++ x.request ++ deli
        ++ x.status ++ deli ++ x.referer ++ deli ++ x.forwardedFor ++ deli ++ x.userAgent
        ++ deli ++ x.sslProtocol ++ deli ++ x.sslCipher ++ deli ++ x.bytesSent ++ deli
        ++ x.requestTime ++ deli ++ x.requestID ++ [0x0a] := by
  simp [Spec.line, Spec.Record.toList, List.intercalate, List.intersperse, List.append_assoc]

theorem line_dropLast (x : Spec.Record) : (Spec.line x).dropLast ++ [0x0a] = Spec.line x := by
  unfold Spec.line
  rw [List.dropLast_concat]

theorem appendFields_eq (r : Request) (res : responseWriter) (now : Time) (since : Int)
    (h : Spec.HeadersOk r) :
    appendFields r res now since =
      some ((Spec.line (Spec.record r res now since)).dropLast ++ deli) := by
  obtain ⟨h1, h2, h3, h4⟩ := h
  rw [line_eq, List.dropLast_concat]
  unfold appendFields appendReferer appendForwardedFor appendUserAgent appendRequestID
  simp only [appendAccessTime_nil, appendRemoteAddr_eq, appendRemoteUser_eq _ r res now since,
    appendRequest_eq, appendStatus, AppendInt, appendHeader_eq _ _ h1, appendHeader_eq _ _ h2,
    appendHeader_eq _ _ h3, appendHeader_eq _ _ h4, appendSSLProtocol_eq, appendSSLCipher_eq,
    appendBytesSent, appendRequestTime_eq, bind, Option.bind, pure]
  simp only [Spec.record, List.append_assoc]

theorem appendFields_none (r : Request) (res : responseWriter) (now : Time) (since : Int)
    (h : ¬ Spec.HeadersOk r) : appendFields r res now since = none := by
  unfold Spec.HeadersOk at h
  unfold appendFields appendReferer appendForwardedFor appendUserAgent appendRequestID
  by_cases h1 : r.Header.get "Referer" = some []
  · simp [h1, appendHeader_empty, bind, Option.bind]
  by_cases h2 : r.Header.get "X-Forwarded-For" = some []
  · simp only [appendHeader_eq _ _ h1, h2, appendHeader_empty, bind, Option.bind]
  by_cases h3 : r.Header.get "User-Agent" = some []
  · simp only [appendHeader_eq _ _ h1, appendHeader_eq _ _ h2, h3, appendHeader_empty, bind,
      Option.bind]
  by_cases h4 : r.Header.get "X-Request-Id" = some []
  · simp only [appendHeader_eq _ _ h1, appendHeader_eq _ _ h2, appendHeader_eq _ _ h3, h4,
      appendHeader_empty, bind, Option.bind]
  exact absurd ⟨h1, h2, h3, h4⟩ h

theorem logLine_eq (r : Request) (res : responseWriter) (now : Time) (since : Int)
    (h : Spec.HeadersOk r) :
    logLine r res now since = some (Spec.line (Spec.record r res now since)) := by
  unfold logLine
  rw [appendFields_eq r res now since h, Option.some_bind, terminate_append_deli,
    line_dropLast]

theorem logLine_none (r : Request) (res : responseWriter) (now : Time) (since : Int)
    (h : ¬ Spec.HeadersOk r) : logLine r res now since = none := by
  unfold logLine
  rw [appendFields_none r res now since h]
  rfl

theorem logLine_some (r : Request) (res : responseWriter) (now : Time) (since : Int)
    (line : Bytes) (h : logLine r res now since = some line) :
    Spec.HeadersOk r ∧ line = Spec.line (Spec.record r res now since) := by
  by_cases hok : Spec.HeadersOk r
  · rw [logLine_eq r res now since hok] at h
    exact ⟨hok, (Option.some.inj h).symm⟩
  · rw [logLine_none r res now since hok] at h
    exact absurd h (by simp)

theorem newHandlerFunc_some (next : Handler) (st st2 : State) (w : ResponseWriter)
    (r : Request) (now : Time) (since : Int) (res : responseWriter)
    (h : newHandlerFunc next st w r now since = some (st2, res)) :
    next.ServeHTTP (observe w) = some res ∧ Spec.HeadersOk r ∧
      ∃ sink, st.sink = some sink ∧
        st2 = { st with out := st.out ++ [(sink, Spec.line (Spec.record r res now since))] } := by
  unfold newHandlerFunc at h
  split at h
  · exact absurd h (by simp)
  · rename_i res1 hs
    split at h
    · exact absurd h (by simp)
    · rename_i line hl
      split at h
      · exact absurd h (by simp)
      · rename_i sink hk
        simp only [Option.some.injEq, Prod.mk.injEq] at h
        obtain ⟨h1, h2⟩ := h
        subst h2
        obtain ⟨hok, hline⟩ := logLine_some r res1 now since line hl
        refine ⟨hs, hok, sink, hk, ?_⟩
        rw [← h1, hline]

theorem newHandlerFunc_eq (next : Handler) (st : State) (w : ResponseWriter)
    (r : Request) (now : Time) (since : Int) (res : responseWriter) (sink : Sink)
    (hret : next.ServeHTTP (observe w) = some res) (hok : Spec.HeadersOk r)
    (hsink : st.sink = some sink) :
    newHandlerFunc next st w r now since =
      some ({ st with out := st.out ++ [(sink, Spec.line (Spec.record r res now since))] },
        res) := by
  unfold newHandlerFunc
  simp only [hret, logLine_eq r res now since hok, hsink]

theorem newHandlerFunc_abort (next : Handler) (st : State) (w : ResponseWriter)
    (r : Request) (now : Time) (since : Int)
    (h : next.ServeHTTP (observe w) = none) : newHandlerFunc next st w r now since = none := by
  unfold newHandlerFunc
  simp only [h]

theorem Header.get_absent (h : Header) (key : String) (habs : ∀ e ∈ h, e.1 ≠ key) :
    Header.get h key = none := by
  induction h with
  | nil => rfl
  | cons e rest ih =>
    obtain ⟨k, v⟩ := e
    have hk : k ≠ key := habs (k, v) (List.mem_cons_self _ _)
    simp only [Header.get, hk, if_false]
    exact ih (fun e he => habs e (List.mem_cons_of_mem _ he))

theorem appendHeader_first (b : Bytes) (v : Bytes) (vs : List Bytes) :
    appendHeader b (some (v :: vs)) = some (b ++ Spec.escape v ++ deli) := by
  simp only [appendHeader, concat_eq]

theorem appendHeader_nil (b : Bytes) : appendHeader b none = some (b ++ ascii "-" ++ deli) := rfl

/-! ## The claims on the observer -/

/-- C6, as the claim states it, fails: after `WriteHeader(404)` and then
`WriteHeader(500)` the recorded status is 500, the second one, and the status
field is `500`, not `404`. -/
theorem C6_counterexample_second_status_recorded :
    (((observe testResponseWriter).WriteHeader 404).WriteHeader 500).code = 500 ∧
      (((observe testResponseWriter).WriteHeader 404).WriteHeader 500).code ≠ 404 ∧
      appendStatus [] (((observe testResponseWriter).WriteHeader 404).WriteHeader 500) =
        ascii "500 | " := by
  refine ⟨rfl, by decide, by decide⟩

/-- C6, amended: `WriteHeader(code)` records `code` on every call, whatever was
recorded before, and forwards every call to the wrapped writer; after
`WriteHeader(c1)` followed by `WriteHeader(c2)` the wrapped writer has received
both calls, in this order, and the status logged is `c2`. -/
theorem C6_writeHeader_records_every_code (w : responseWriter) (c1 c2 : Int) (b : Bytes) :
    (w.WriteHeader c1).code = c1 ∧
      (w.WriteHeader c1).calls = w.calls ++ [Call.WriteHeader c1] ∧
      ((w.WriteHeader c1).WriteHeader c2).code = c2 ∧
      ((w.WriteHeader c1).WriteHeader c2).calls =
        w.calls ++ [Call.WriteHeader c1, Call.WriteHeader c2] ∧
      ((w.WriteHeader c1).WriteHeader c2).sent = w.sent ∧
      appendStatus b ((w.WriteHeader c1).WriteHeader c2) = b ++ formatInt c2 ++ deli := by
  refine ⟨rfl, rfl, rfl, ?_, rfl, rfl⟩
  simp [responseWriter.WriteHeader]

/-- C7: a `Write` on an observer without status first forwards `WriteHeader(200)`
to the wrapped writer and records 200, so the status field reads `200`; a
`Write` on an observer with a status other than 0 leaves the status and forwards
no `WriteHeader`.  A handler that starts with `Write` and never calls
`WriteHeader` is logged with status `200`. -/
theorem C7_write_defaults_status_200 (w : responseWriter) (buf : Bytes) :
    (w.code = 0 →
        (w.Write buf).1.code = 200 ∧
        (w.Write buf).1.calls = w.calls ++ [Call.WriteHeader 200, Call.Write buf] ∧
        ∀ b, appendStatus b (w.Write buf).1 = b ++ ascii "200" ++ deli) ∧
      (w.code ≠ 0 →
        (w.Write buf).1.code = w.code ∧
        (w.Write buf).1.calls = w.calls ++ [Call.Write buf]) ∧
      ∀ (k : Int → GoError → Handler) (st st2 : State) (r : Request) (now : Time)
        (since : Int) (res : responseWriter),
        (∀ n e, (k n e).NoWriteHeader) →
        newHandlerFunc (Handler.Write buf k) st w.wrap r now since = some (st2, res) →
        res.code = 200 ∧ (Spec.record r res now since).status = ascii "200" ∧
          ∃ sink, st.sink = some sink ∧
            st2.out = st.out ++ [(sink, Spec.line (Spec.record r res now since))] := by
  refine ⟨?_, ?_, ?_⟩
  · intro h
    have hc := Write_code_of_eq w buf h
    refine ⟨hc, ?_, ?_⟩
    · simp [responseWriter.Write, h, responseWriter.WriteHeader]
    · intro b
      simp only [appendStatus, AppendInt, hc]
      rfl
  · intro h
    refine ⟨Write_code_of_ne w buf h, ?_⟩
    simp [responseWriter.Write, h]
  · intro k st st2 r now since res hk h
    obtain ⟨hs, _, sink, hsink, hst⟩ := newHandlerFunc_some _ _ _ _ _ _ _ _ h
    simp only [Handler.ServeHTTP] at hs
    have h200 := Write_code_of_eq (observe w.wrap) buf rfl
    have hcode : res.code = 200 := by
      rw [ServeHTTP_code_of_noWriteHeader _ _ _ (by rw [h200]; decide) (hk _ _) hs, h200]
    refine ⟨hcode, ?_, sink, hsink, ?_⟩
    · simp only [Spec.record, hcode]
      rfl
    · rw [hst]

/-- C7, witness: the handler of `TestLoggerOutput_1` only calls `Write`; the
line has status `200`. -/
theorem C7_write_defaults_status_200_witness :
    ((observe testResponseWriter).Write []).1.code = 200 ∧
      (newHandlerFunc handler1 { sink := some 1, out := [] } testResponseWriter request1 clock0
        1234).map (fun x => x.1.out) =
        some [(1, ascii ("2019-09-05T07:08:09+02:00 | 0.0.0.0 | user | GET .. HTTP/1.1 | 200 " ++
          "| b | c | d | TLSv1.2 | ECDHE-RSA-AES256-GCM-SHA384 | 42 | 0.000 | ~..\n"))] :=
  ⟨((C7_write_defaults_status_200 (observe testResponseWriter) []).1 rfl).1, by decide⟩

/-- C9, as the claim states it, fails: on a wrapped writer that returns the
count 2^63 - 1, two calls of `Write` return counts whose sum is 2^64 - 2, and
`sent` is -2 after them: the second addition overflows the `int` and wraps. -/
theorem C9_counterexample_sent_wraps_around :
    ((observe greedyWriter).Write []).2.1 = 9223372036854775807 ∧
      ((observe greedyWriter).Write []).1.sent = 9223372036854775807 ∧
      (((observe greedyWriter).Write []).1.Write []).2.1 = 9223372036854775807 ∧
      (((observe greedyWriter).Write []).1.Write []).1.sent = -2 ∧
      (((observe greedyWriter).Write []).1.Write []).1.sent ≠
        ((observe greedyWriter).Write []).1.sent +
          (((observe greedyWriter).Write []).1.Write []).2.1 ∧
      appendBytesSent [] (((observe greedyWriter).Write []).1.Write []).1 = ascii "-2 | " := by
  refine ⟨by decide, by decide, by decide, by decide, by decide, by decide⟩

/-- C9, amended: `Write` hands the same bytes to the wrapped writer, returns
exactly what the wrapped writer returned, and adds the returned count, whatever
it is and whatever the error, to `sent` as an `int` addition: `sent` is the sum
wrapped into `[-2^63, 2^63)`, which is the exact sum whenever that lies in the
range.  After any run of a handler on an observer whose `sent` is in the range,
`sent` is the old value plus the sum of the counts returned, wrapped into the
range, and the exact total whenever that lies in the range. -/
theorem C9_write_adds_returned_count (w : responseWriter) (buf : Bytes) (n : Int)
    (err : GoError)
    (hres : w.wrap.Write (if w.code = 0 then w.calls ++ [Call.WriteHeader 200] else w.calls)
      buf = (n, err)) :
    (w.Write buf).2 = (n, err) ∧
      (w.Write buf).1.calls.getLast? = some (Call.Write buf) ∧
      (w.Write buf).1.sent = wrapInt (w.sent + n) ∧
      (-(2 ^ 63) ≤ w.sent + n → w.sent + n < 2 ^ 63 → (w.Write buf).1.sent = w.sent + n) ∧
      (w.Write buf).1.wrap = w.wrap ∧
      ∀ (next : Handler) (res : responseWriter), wrapInt w.sent = w.sent →
        next.ServeHTTP w = some res →
        res.sent = wrapInt (w.sent + (next.counts w).sum) ∧
          (-(2 ^ 63) ≤ w.sent + (next.counts w).sum → w.sent + (next.counts w).sum < 2 ^ 63 →
            res.sent = w.sent + (next.counts w).sum) := by
  have h2 : (w.Write buf).2 = (n, err) := by
    rw [← hres]
    unfold responseWriter.Write
    split <;> simp_all [responseWriter.WriteHeader]
  have h3 : (w.Write buf).1.sent = wrapInt (w.sent + n) := by rw [Write_sent, h2]
  refine ⟨h2, ?_, h3, ?_, ?_, ?_⟩
  · unfold responseWriter.Write
    simp
  · intro hlo hhi
    rw [h3, wrapInt_of_inRange _ hlo hhi]
  · unfold responseWriter.Write
    split <;> rfl
  · intro next res hw h
    have hs : res.sent = wrapInt (w.sent + (next.counts w).sum) := by
      rw [← ServeHTTP_sent next w res h, ServeHTTP_sent_inRange next w res hw h]
    refine ⟨hs, ?_⟩
    intro hlo hhi
    rw [hs, wrapInt_of_inRange _ hlo hhi]

/-- C9, witness: in `TestLoggerOutput_1` the handler calls `Write(nil)` on a
writer that returns 42; `sent` is 42 and the bytes-sent field reads `42`. -/
theorem C9_write_adds_returned_count_witness :
    ((observe testResponseWriter).Write []).2 = (42, none) ∧
      ((observe testResponseWriter).Write []).1.sent = 0 + 42 ∧
      (∀ res, handler1.ServeHTTP (observe testResponseWriter) = some res → res.sent = 0 + 42) ∧
      appendBytesSent [] ((observe testResponseWriter).Write []).1 = ascii "42 | " := by
  have h := C9_write_adds_returned_count (observe testResponseWriter) [] 42 none rfl
  refine ⟨h.1, h.2.2.2.1 (by decide) (by decide), ?_, by decide⟩
  intro res hres
  have h5 := (C9_write_adds_returned_count (observe testResponseWriter) [] 42 none rfl).2.2.2.2.2
    handler1 res (by decide) hres
  exact h5.2 (by decide) (by decide)

/-! ## The claims on the extractors -/

/-- C10: for each of the four header extractors, a header present with first
value `v` (the empty string included) gives `b ++ escape(v) ++ " | "`, whatever
the further values, and an absent header gives `b ++ "-" ++ " | "`. -/
theorem C10_header_extractors (b : Bytes) (r : Request) :
    (∀ v vs, r.Header.get "Referer" = some (v :: vs) →
        appendReferer b r = some (b ++ Spec.escape v ++ deli)) ∧
      ((∀ e ∈ r.Header, e.1 ≠ "Referer") →
        appendReferer b r = some (b ++ ascii "-" ++ deli)) ∧
      (∀ v vs, r.Header.get "X-Forwarded-For" = some (v :: vs) →
        appendForwardedFor b r = some (b ++ Spec.escape v ++ deli)) ∧
      ((∀ e ∈ r.Header, e.1 ≠ "X-Forwarded-For") →
        appendForwardedFor b r = some (b ++ ascii "-" ++ deli)) ∧
      (∀ v vs, r.Header.get "User-Agent" = some (v :: vs) →
        appendUserAgent b r = some (b ++ Spec.escape v ++ deli)) ∧
      ((∀ e ∈ r.Header, e.1 ≠ "User-Agent") →
        appendUserAgent b r = some (b ++ ascii "-" ++ deli)) ∧
      (∀ v vs, r.Header.get "X-Request-Id" = some (v :: vs) →
        appendRequestID b r = some (b ++ Spec.escape v ++ deli)) ∧
      ((∀ e ∈ r.Header, e.1 ≠ "X-Request-Id") →
        appendRequestID b r = some (b ++ ascii "-" ++ deli)) := by
  refine ⟨?_, ?_, ?_, ?_, ?_, ?_, ?_, ?_⟩
  · intro v vs h
    rw [appendReferer, h, appendHeader_first]
  · intro h
    rw [appendReferer, Header.get_absent _ _ h, appendHeader_nil]
  · intro v vs h
    rw [appendForwardedFor, h, appendHeader_first]
  · intro h
    rw [appendForwardedFor, Header.get_absent _ _ h, appendHeader_nil]
  · intro v vs h
    rw [appendUserAgent, h, appendHeader_first]
  · intro h
    rw [appendUserAgent, Header.get_absent _ _ h, appendHeader_nil]
  · intro v vs h
    rw [appendRequestID, h, appendHeader_first]
  · intro h
    rw [appendRequestID, Header.get_absent _ _ h, appendHeader_nil]

/-- C10, witness: the empty header map of `TestLoggerOutput_2` gives `-` for the
referer, and a referer present with the empty string as first value gives the
empty field. -/
theorem C10_header_extractors_witness :
    (∀ e ∈ request2.Header, e.1 ≠ "Referer") ∧
      appendReferer (ascii "x") request2 = some (ascii "x- | ") ∧
      appendReferer (ascii "x")
        { request2 with Header := [("Referer", some [[], ascii "y"])] } =
        some (ascii "x | ") := by
  refine ⟨by decide, ?_, ?_⟩
  · rw [(C10_header_extractors (ascii "x") request2).2.1 (by decide)]
    decide
  · rw [(C10_header_extractors (ascii "x")
      { request2 with Header := [("Referer", some [[], ascii "y"])] }).1 [] [ascii "y"] (by decide)]
    decide

/-! ## Lemmas on the bytes of the fields -/

theorem digitsLoop_digit (fuel : Nat) :
    ∀ (u : Nat) (acc : Bytes), u ≤ fuel → (∀ c ∈ acc, 0x30 ≤ c ∧ c ≤ 0x39) →
      ∀ c ∈ digitsLoop fuel u acc, 0x30 ≤ c ∧ c ≤ 0x39 := by
  induction fuel with
  | zero =>
    intro u acc hu hacc c hc
    simp only [digitsLoop, List.mem_cons] at hc
    rcases hc with rfl | hc
    · omega
    · exact hacc c hc
  | succ n ih =>
    intro u acc hu hacc c hc
    unfold digitsLoop at hc
    split at hc
    · rename_i h10
      refine ih (u / 10) _ (by omega) ?_ c hc
      intro d hd
      simp only [List.mem_cons] at hd
      rcases hd with rfl | hd
      · omega
      · exact hacc d hd
    · rename_i h10
      simp only [List.mem_cons] at hc
      rcases hc with rfl | hc
      · omega
      · exact hacc c hc

theorem natDigits_clean (n : Nat) : ∀ c ∈ natDigits n, Spec.Clean c := by
  intro c hc
  have h := digitsLoop_digit n n [] (Nat.le_refl _) (by simp) c hc
  unfold Spec.Clean
  omega

theorem formatInt_clean (i : Int) : ∀ c ∈ formatInt i, Spec.Clean c := by
  intro c hc
  unfold formatInt at hc
  split at hc
  · simp only [List.mem_cons] at hc
    rcases hc with rfl | hc
    · decide
    · exact natDigits_clean _ c hc
  · exact natDigits_clean _ c hc

theorem padInt_clean (x : Int) (width : Nat) : ∀ c ∈ padInt x width, Spec.Clean c := by
  intro c hc
  simp only [padInt, List.mem_append, List.mem_replicate] at hc
  rcases hc with (hc | hc) | hc
  · split at hc
    · simp only [List.mem_singleton] at hc
      rw [hc]; decide
    · simp at hc
  · rw [hc.2]; decide
  · exact natDigits_clean _ c hc

theorem formatZone_clean (offset : Int) : ∀ c ∈ formatZone offset, Spec.Clean c := by
  intro c hc
  unfold formatZone at hc
  split at hc
  · simp only [List.mem_singleton] at hc
    rw [hc]; decide
  · simp only at hc
    split at hc
    · simp only [List.mem_append, List.mem_singleton] at hc
      rcases hc with ((hc | hc) | hc) | hc
      · rw [hc]; decide
      · exact padInt_clean _ _ c hc
      · rw [hc]; decide
      · exact padInt_clean _ _ c hc
    · simp only [List.mem_append, List.mem_singleton] at hc
      rcases hc with ((hc | hc) | hc) | hc
      · rw [hc]; decide
      · exact padInt_clean _ _ c hc
      · rw [hc]; decide
      · exact padInt_clean _ _ c hc

theorem RFC3339_clean (t : Time) : ∀ c ∈ RFC3339 t, Spec.Clean c := by
  intro c hc
  simp only [RFC3339, List.mem_append, List.mem_singleton] at hc
  rcases hc with
    (((((((((((hc | hc) | hc) | hc) | hc) | hc) | hc) | hc) | hc) | hc) | hc) | hc)
  · exact padInt_clean _ _ c hc
  · rw [hc]; decide
  · exact padInt_clean _ _ c hc
  · rw [hc]; decide
  · exact padInt_clean _ _ c hc
  · rw [hc]; decide
  · exact padInt_clean _ _ c hc
  · rw [hc]; decide
  · exact padInt_clean _ _ c hc
  · rw [hc]; decide
  · exact padInt_clean _ _ c hc
  · exact formatZone_clean _ c hc

theorem pad3_clean (n : Nat) : ∀ c ∈ pad3 n, Spec.Clean c := by
  intro c hc
  simp only [pad3, List.mem_append, List.mem_replicate] at hc
  rcases hc with hc | hc
  · rw [hc.2]; decide
  · exact natDigits_clean _ c hc

theorem formatFloat3_clean (d : F64) : ∀ c ∈ formatFloat3 d, Spec.Clean c := by
  intro c hc
  simp only [formatFloat3, List.mem_append, List.mem_singleton] at hc
  rcases hc with ((hc | hc) | hc) | hc
  · split at hc
    · simp only [List.mem_singleton] at hc
      rw [hc]; decide
    · simp at hc
  · exact natDigits_clean _ c hc
  · rw [hc]; decide
  · exact pad3_clean _ c hc

theorem tableGet_mem (table : List (Nat × String)) (code : Nat) (name : String)
    (h : tableGet table code = some name) : (code, name) ∈ table := by
  induction table with
  | nil => simp [tableGet] at h
  | cons e rest ih =>
    obtain ⟨k, v⟩ := e
    unfold tableGet at h
    split at h
    · rename_i hk
      simp only [Option.some.injEq] at h
      rw [hk, h]
      exact List.mem_cons_self _ _
    · exact List.mem_cons_of_mem _ (ih h)

theorem tlsVersion_clean : ∀ e ∈ tlsVersion, ∀ c ∈ ascii e.2, Spec.Clean c := by decide

theorem cipherSuite_clean : ∀ e ∈ cipherSuite, ∀ c ∈ ascii e.2, Spec.Clean c := by decide

theorem tlsName_clean (table : List (Nat × String))
    (ht : ∀ e ∈ table, ∀ c ∈ ascii e.2, Spec.Clean c) (code : Option Nat) :
    ∀ c ∈ Spec.tlsName table code, Spec.Clean c := by
  intro c hc
  unfold Spec.tlsName at hc
  rcases code with _ | n
  · simp only [List.mem_singleton] at hc
    rw [hc]; decide
  · simp only at hc
    rcases hg : tableGet table n with _ | name
    · rw [hg] at hc
      simp only [List.mem_singleton] at hc
      rw [hc]; decide
    · rw [hg] at hc
      exact ht _ (tableGet_mem table n name hg) c hc

theorem headerValue_clean (s : Option (List Bytes)) :
    ∀ c ∈ Spec.headerValue s, Spec.Clean c := by
  intro c hc
  unfold Spec.headerValue at hc
  split at hc
  · exact escape_clean _ c hc
  · simp only [List.mem_singleton] at hc
    rw [hc]; decide

theorem record_clean (r : Request) (res : responseWriter) (now : Time) (since : Int)
    (hm : ∀ c ∈ r.Method, Spec.Clean c) (hp : ∀ c ∈ r.Proto, Spec.Clean c)
    (ha : ∀ c ∈ Spec.stripPort r.RemoteAddr, Spec.Clean c) :
    ∀ f ∈ (Spec.record r res now since).toList, ∀ c ∈ f, Spec.Clean c := by
  intro f hf c hc
  simp only [Spec.Record.toList, Spec.record, List.mem_cons, List.mem_singleton,
    List.not_mem_nil, or_false] at hf
  rcases hf with rfl | rfl | rfl | rfl | rfl | rfl | rfl | rfl | rfl | rfl | rfl | rfl | rfl
  · exact RFC3339_clean _ c hc
  · exact ha c hc
  · rcases hb : r.BasicAuth with _ | ⟨u, pw⟩
    · rw [hb] at hc
      simp only [List.mem_singleton] at hc
      rw [hc]; decide
    · rw [hb] at hc
      exact escape_clean _ c hc
  · simp only [List.mem_append, List.mem_singleton] at hc
    rcases hc with (((hc | hc) | hc) | hc) | hc
    · exact hm c hc
    · rw [hc]; decide
    · exact escape_clean _ c hc
    · rw [hc]; decide
    · exact hp c hc
  · exact formatInt_clean _ c hc
  · exact headerValue_clean _ c hc
  · exact headerValue_clean _ c hc
  · exact headerValue_clean _ c hc
  · exact tlsName_clean _ tlsVersion_clean _ c hc
  · exact tlsName_clean _ cipherSuite_clean _ c hc
  · exact formatInt_clean _ c hc
  · split at hc
    · exact formatFloat3_clean _ c hc
    · revert c
      decide
  · exact headerValue_clean _ c hc

/-! ## Lemmas on splitting at the delimiter -/

theorem splitScan_field (f t : Bytes) (hf : ∀ c ∈ f, c ≠ 0x7C) :
    Spec.splitScan 0 (f ++ deli ++ t) = f :: Spec.splitScan 0 t := by
  induction f with
  | nil => simp [Spec.splitScan, deli, pipe, List.isPrefixOf]
  | cons a f2 ih =>
    have ih2 := ih (fun c hc => hf c (List.mem_cons_of_mem _ hc))
    have hnot : deli.isPrefixOf (a :: (f2 ++ deli ++ t)) = false := by
      rcases f2 with _ | ⟨b, f3⟩
      · simp [deli, pipe, List.isPrefixOf]
      · have hb : b ≠ 0x7C := hf b (by simp)
        simp [deli, pipe, List.isPrefixOf, Ne.symm hb]
    simp only [List.cons_append]
    rw [Spec.splitScan]
    simp only [List.cons_append] at hnot
    simp only [List.append_assoc] at ih2 hnot ⊢
    rw [hnot]
    simp only [Bool.false_eq_true, if_false]
    rw [ih2]
    rfl

theorem splitScan_last (f : Bytes) (hf : ∀ c ∈ f, c ≠ 0x7C) : Spec.splitScan 0 f = [f] := by
  induction f with
  | nil => rfl
  | cons a f2 ih =>
    have ih2 := ih (fun c hc => hf c (List.mem_cons_of_mem _ hc))
    have hnot : deli.isPrefixOf (a :: f2) = false := by
      rcases f2 with _ | ⟨b, f3⟩
      · simp [deli, pipe, List.isPrefixOf]
      · have hb : b ≠ 0x7C := hf b (by simp)
        simp [deli, pipe, List.isPrefixOf, Ne.symm hb]
    rw [Spec.splitScan, hnot]
    simp only [Bool.false_eq_true, if_false]
    rw [ih2]
    rfl

theorem intercalate_cons_cons (sep a b : Bytes) (l : List Bytes) :
    sep.intercalate (a :: b :: l) = a ++ sep ++ sep.intercalate (b :: l) := by
  simp [List.intercalate, List.intersperse]

theorem splitDeli_intercalate (fs : List Bytes) (hne : fs ≠ [])
    (hf : ∀ f ∈ fs, ∀ c ∈ f, c ≠ 0x7C) : Spec.splitDeli (deli.intercalate fs) = fs := by
  unfold Spec.splitDeli
  induction fs with
  | nil => exact absurd rfl hne
  | cons a rest ih =>
    rcases rest with _ | ⟨b, l⟩
    · have : deli.intercalate [a] = a := by simp [List.intercalate, List.intersperse]
      rw [this]
      exact splitScan_last a (hf a (by simp))
    · rw [intercalate_cons_cons, splitScan_field a _ (hf a (by simp)),
        ih (by simp) (fun f h => hf f (List.mem_cons_of_mem _ h))]

theorem mem_intercalate (sep : Bytes) (fs : List Bytes) (c : Nat)
    (hc : c ∈ sep.intercalate fs) : c ∈ sep ∨ ∃ f ∈ fs, c ∈ f := by
  induction fs with
  | nil => simp [List.intercalate, List.intersperse] at hc
  | cons a rest ih =>
    rcases rest with _ | ⟨b, l⟩
    · have : sep.intercalate [a] = a := by simp [List.intercalate, List.intersperse]
      rw [this] at hc
      exact Or.inr ⟨a, by simp, hc⟩
    · rw [intercalate_cons_cons] at hc
      simp only [List.mem_append] at hc
      rcases hc with (hc | hc) | hc
      · exact Or.inr ⟨a, by simp, hc⟩
      · exact Or.inl hc
      · rcases ih hc with h | ⟨f, hf, hcf⟩
        · exact Or.inl h
        · exact Or.inr ⟨f, List.mem_cons_of_mem _ hf, hcf⟩

/-! ## The claims on the line -/

/-- C1, as the claim states it, fails: a handler that panics leaves the sink
without a `Write`, and so does a request whose `Referer` header is present with
an empty list of values (the index `s[0]` panics). -/
theorem C1_counterexample_no_write :
    (Logger 1 state0).1 Handler.abort (Logger 1 state0).2 testResponseWriter request1 clock0
        1234 = none ∧
      (Logger 1 state0).1 handler1 (Logger 1 state0).2 testResponseWriter
        { request1 with Header := [("Referer", some [])] } clock0 1234 = none :=
  ⟨rfl, rfl⟩

/-- C1, amended: for every request in which each logged header that is present
has a first value, every handler that returns, and every sink, the handler
returned by `Logger(sink)(next)` runs `next` on the observer and then issues
exactly one `Write` to the sink; its bytes are the 13 field values in the fixed
order, joined by `" | "`, followed by a single newline. -/
theorem C1_one_line_of_13_fields (sink : Sink) (st : State) (next : Handler)
    (w : ResponseWriter) (r : Request) (now : Time) (since : Int) (res : responseWriter)
    (hret : next.ServeHTTP (observe w) = some res) (hok : Spec.HeadersOk r) :
    (Logger sink st).1 next (Logger sink st).2 w r now since =
        some ({ sink := some sink,
                out := st.out ++ [(sink, Spec.line (Spec.record r res now since))] }, res) ∧
      Spec.line (Spec.record r res now since) =
        deli.intercalate
          [RFC3339 now, Spec.stripPort r.RemoteAddr, (Spec.record r res now since).remoteUser,
           r.Method ++ [0x20] ++ Spec.escape r.URL.Path ++ [0x20] ++ r.Proto,
           formatInt res.code, Spec.headerValue (r.Header.get "Referer"),
           Spec.headerValue (r.Header.get "X-Forwarded-For"),
           Spec.headerValue (r.Header.get "User-Agent"),
           (Spec.record r res now since).sslProtocol, (Spec.record r res now since).sslCipher,
           formatInt res.sent, (Spec.record r res now since).requestTime,
           Spec.headerValue (r.Header.get "X-Request-Id")] ++ [0x0a] := by
  refine ⟨?_, rfl⟩
  simp only [Logger]
  rw [newHandlerFunc_eq next _ w r now since res sink hret hok rfl]

/-- C1, witness: the request of `TestLoggerOutput_1`, served 1234 ns, gives the
line of the test. -/
theorem C1_one_line_of_13_fields_witness :
    handler1.ServeHTTP (observe testResponseWriter) =
        some ((observe testResponseWriter).Write []).1.Header.2 ∧
      Spec.HeadersOk request1 ∧
      ((Logger 1 state0).1 handler1 (Logger 1 state0).2 testResponseWriter request1 clock0
        1234).map (fun x => x.1) =
        some { sink := some 1,
               out := [(1, Spec.line (Spec.record request1
                 ((observe testResponseWriter).Write []).1.Header.2 clock0 1234))] } ∧
      Spec.line (Spec.record request1 ((observe testResponseWriter).Write []).1.Header.2 clock0
        1234) =
        ascii ("2019-09-05T07:08:09+02:00 | 0.0.0.0 | user | GET .. HTTP/1.1 | 200 " ++
          "| b | c | d | TLSv1.2 | ECDHE-RSA-AES256-GCM-SHA384 | 42 | 0.000 | ~..\n") := by
  refine ⟨rfl, by decide, ?_, by decide⟩
  rw [(C1_one_line_of_13_fields 1 state0 handler1 testResponseWriter request1 clock0 1234
    ((observe testResponseWriter).Write []).1.Header.2 rfl (by decide)).1]
  rfl

/-- C2, as the claim states it, fails: the peer address, the method and the
protocol are copied as they are.  A peer address `1.2.3.4 | x` gives a line of
14 fields, a method `GET` followed by a newline gives a line with a newline in
the middle, and a protocol ending in byte 7F gives a field with that byte. -/
theorem C2_counterexample_unescaped_fields :
    (logLine { request2 with RemoteAddr := ascii "1.2.3.4 | x" } (observe testResponseWriter)
          clock0 1234 =
        some (ascii ("2019-09-05T07:08:09+02:00 | 1.2.3.4 | x | - | GET a HTTP/1.1 | 0 " ++
          "| - | - | - | - | - | 0 | 0.000 | -") ++ [0x0a]) ∧
      (Spec.splitDeli (ascii ("2019-09-05T07:08:09+02:00 | 1.2.3.4 | x | - | GET a HTTP/1.1 " ++
          "| 0 | - | - | - | - | - | 0 | 0.000 | -"))).length = 14) ∧
      (logLine { request2 with Method := ascii "GET\n" } (observe testResponseWriter)
          clock0 1234 =
        some (ascii ("2019-09-05T07:08:09+02:00 | 0.0.0.0 | - | GET\n a HTTP/1.1 | 0 " ++
          "| - | - | - | - | - | 0 | 0.000 | -") ++ [0x0a]) ∧
      0x0a ∈ ascii ("2019-09-05T07:08:09+02:00 | 0.0.0.0 | - | GET\n a HTTP/1.1 | 0 " ++
          "| - | - | - | - | - | 0 | 0.000 | -")) ∧
      (logLine { request2 with Proto := ascii "HTTP/1.1" ++ [0x7F] } (observe testResponseWriter)
          clock0 1234 =
        some (ascii "2019-09-05T07:08:09+02:00 | 0.0.0.0 | - | GET a HTTP/1.1" ++ [0x7F] ++
          ascii " | 0 | - | - | - | - | - | 0 | 0.000 | -" ++ [0x0a]) ∧
      0x7F ∈ (Spec.splitDeli (ascii "2019-09-05T07:08:09+02:00 | 0.0.0.0 | - | GET a HTTP/1.1"
          ++ [0x7F] ++ ascii " | 0 | - | - | - | - | - | 0 | 0.000 | -")).getD 3 []) := by
  refine ⟨⟨by decide, by decide⟩, ⟨by decide, by decide⟩, ⟨by decide, by decide⟩⟩

/-- C2, amended: for all requests whose method, protocol and peer address before
its port hold only printable bytes other than the pipe, the line is emitted
whenever each logged header that is present has a first value, and every emitted
line ends with exactly one newline byte and holds no other newline, splits on
`" | "` into exactly the 13 fields of the record, and no field value holds a
pipe or a byte outside `[0x20, 0x7E]`. -/
theorem C2_line_has_13_clean_fields (r : Request) (res : responseWriter) (now : Time)
    (since : Int) (hm : ∀ c ∈ r.Method, Spec.Clean c) (hp : ∀ c ∈ r.Proto, Spec.Clean c)
    (ha : ∀ c ∈ Spec.stripPort r.RemoteAddr, Spec.Clean c) :
    (Spec.HeadersOk r → ∃ line, logLine r res now since = some line) ∧
      ∀ line, logLine r res now since = some line →
        ∃ body, line = body ++ [0x0a] ∧ 0x0a ∉ body ∧
          (Spec.splitDeli body).length = 13 ∧
          Spec.splitDeli body = (Spec.record r res now since).toList ∧
          ∀ f ∈ Spec.splitDeli body, ∀ c ∈ f, 0x20 ≤ c ∧ c ≤ 0x7E ∧ c ≠ 0x7C := by
  have hclean := record_clean r res now since hm hp ha
  refine ⟨fun hok => ⟨_, logLine_eq r res now since hok⟩, ?_⟩
  intro line h
  obtain ⟨_, hline⟩ := logLine_some r res now since line h
  have hsplit : Spec.splitDeli (deli.intercalate (Spec.record r res now since).toList) =
      (Spec.record r res now since).toList :=
    splitDeli_intercalate _ (by simp [Spec.Record.toList])
      (fun f hf c hc => (hclean f hf c hc).2.2)
  refine ⟨deli.intercalate (Spec.record r res now since).toList, ?_, ?_, ?_, hsplit, ?_⟩
  · rw [hline]
    rfl
  · intro hmem
    rcases mem_intercalate _ _ _ hmem with hd | ⟨f, hf, hc⟩
    · revert hd
      decide
    · have := hclean f hf _ hc
      unfold Spec.Clean at this
      omega
  · rw [hsplit]
    rfl
  · rw [hsplit]
    intro f hf c hc
    exact hclean f hf c hc

/-- C2, witness: the line of `TestLoggerOutput_1`. -/
theorem C2_line_has_13_clean_fields_witness :
    (∀ c ∈ request1.Method, Spec.Clean c) ∧ (∀ c ∈ request1.Proto, Spec.Clean c) ∧
      (∀ c ∈ Spec.stripPort request1.RemoteAddr, Spec.Clean c) ∧
      ∃ line, logLine request1 ((observe testResponseWriter).Write []).1 clock0 1234 =
        some line :=
  ⟨by decide, by decide, by decide,
   (C2_line_has_13_clean_fields request1 ((observe testResponseWriter).Write []).1 clock0 1234
     (by decide) (by decide) (by decide)).1 (by decide)⟩

/-- C8: if the handler never calls `Write` or `WriteHeader`, the observer ends
with status 0 and 0 bytes sent, the two extractors append `0`, and the status
field and the bytes-sent field of the emitted line are exactly `0`. -/
theorem C8_silent_handler_logs_zero (next : Handler) (hsilent : next.Silent) (st st2 : State)
    (w : ResponseWriter) (r : Request) (now : Time) (since : Int) (res : responseWriter)
    (h : newHandlerFunc next st w r now since = some (st2, res)) :
    res.code = 0 ∧ res.sent = 0 ∧
      (∀ b, appendStatus b res = b ++ ascii "0" ++ deli) ∧
      (∀ b, appendBytesSent b res = b ++ ascii "0" ++ deli) ∧
      (Spec.record r res now since).status = ascii "0" ∧
      (Spec.record r res now since).bytesSent = ascii "0" ∧
      ∃ sink, st.sink = some sink ∧
        st2.out = st.out ++ [(sink, Spec.line (Spec.record r res now since))] := by
  obtain ⟨hs, _, sink, hsink, hst⟩ := newHandlerFunc_some _ _ _ _ _ _ _ _ h
  obtain ⟨hc, hn⟩ := ServeHTTP_silent next _ _ hsilent hs
  have hc0 : res.code = 0 := hc
  have hn0 : res.sent = 0 := hn
  refine ⟨hc0, hn0, ?_, ?_, ?_, ?_, sink, hsink, ?_⟩
  · intro b
    simp only [appendStatus, AppendInt, hc0]
    rfl
  · intro b
    simp only [appendBytesSent, AppendInt, hn0]
    rfl
  · simp only [Spec.record, hc0]
    rfl
  · simp only [Spec.record, hn0]
    rfl
  · rw [hst]

/-- C8, witness: a handler that only flushes, on the request of
`TestLoggerOutput_2`. -/
theorem C8_silent_handler_logs_zero_witness :
    (Handler.Flush Handler.ret).Silent ∧
      newHandlerFunc (Handler.Flush Handler.ret) { sink := some 1, out := [] }
          testResponseWriter request2 clock0 1234 =
        some ({ sink := some 1,
                out := [(1, ascii ("2019-09-05T07:08:09+02:00 | 0.0.0.0 | - | GET a HTTP/1.1 " ++
                  "| 0 | - | - | - | - | - | 0 | 0.000 | -\n"))] },
          (observe testResponseWriter).Flush) ∧
      (Spec.record request2 (observe testResponseWriter).Flush clock0 1234).status = ascii "0" :=
  ⟨trivial, rfl,
   (C8_silent_handler_logs_zero (Handler.Flush Handler.ret) trivial { sink := some 1, out := [] }
     _ testResponseWriter request2 clock0 1234 (observe testResponseWriter).Flush rfl).2.2.2.2.1⟩

/-! ## The claims on the single extractors -/

/-- C11, the code at the failing input: with a logged header present and mapped
to an empty list that is not nil, each of the four header extractors panics on
the index `s[0]`, and no line is written. -/
theorem C11_empty_value_list_panics :
    appendReferer [] { request2 with Header := [("Referer", some [])] } = none ∧
      appendForwardedFor [] { request2 with Header := [("X-Forwarded-For", some [])] } = none ∧
      appendUserAgent [] { request2 with Header := [("User-Agent", some [])] } = none ∧
      appendRequestID [] { request2 with Header := [("X-Request-Id", some [])] } = none ∧
      logLine { request2 with Header := [("Referer", some [])] } (observe testResponseWriter)
        clock0 1234 = none := by
  refine ⟨by decide, by decide, by decide, by decide, by decide⟩

theorem dropWhile_append_stop (p : Nat → Bool) (l : Bytes) (x : Nat) (rest : Bytes)
    (hl : ∀ c ∈ l, p c = true) (hx : p x = false) :
    (l ++ x :: rest).dropWhile p = x :: rest := by
  induction l with
  | nil => simp [List.dropWhile, hx]
  | cons a l2 ih =>
    have ha : p a = true := hl a (List.mem_cons_self _ _)
    simp only [List.cons_append, List.dropWhile_cons_of_pos ha]
    exact ih (fun c hc => hl c (List.mem_cons_of_mem _ hc))

theorem stripPort_colon (pre post : Bytes) (hpost : 0x3A ∉ post) :
    Spec.stripPort (pre ++ 0x3A :: post) = pre := by
  unfold Spec.stripPort
  have hrev : (pre ++ 0x3A :: post).reverse = post.reverse ++ 0x3A :: pre.reverse := by simp
  rw [hrev, dropWhile_append_stop _ _ _ _ ?_ (by simp)]
  · simp
  · intro c hc
    have hc2 : c ∈ post := List.mem_reverse.mp hc
    have : c ≠ 0x3A := fun h => hpost (h ▸ hc2)
    simp [this]

theorem stripPort_no_colon (addr : Bytes) (h : 0x3A ∉ addr) : Spec.stripPort addr = addr := by
  unfold Spec.stripPort
  have hd : addr.reverse.dropWhile (fun c => decide (c ≠ 0x3A)) = [] := by
    rw [List.dropWhile_eq_nil_iff]
    intro c hc
    have hc2 : c ∈ addr := List.mem_reverse.mp hc
    have : c ≠ 0x3A := fun h2 => h (h2 ▸ hc2)
    simp [this]
  rw [hd]

/-- C12: if the peer address contains a colon, `appendRemoteAddr` appends what
precedes the rightmost colon, then the delimiter; if it contains no colon, it
appends the whole address, then the delimiter. -/
theorem C12_remote_addr_strips_port (b : Bytes) (r : Request) :
    (∀ pre post, r.RemoteAddr = pre ++ 0x3A :: post → 0x3A ∉ post →
        appendRemoteAddr b r = b ++ pre ++ deli) ∧
      (0x3A ∉ r.RemoteAddr → appendRemoteAddr b r = b ++ r.RemoteAddr ++ deli) ∧
      (0x3A ∈ r.RemoteAddr → ∃ pre post, r.RemoteAddr = pre ++ 0x3A :: post ∧ 0x3A ∉ post) := by
  refine ⟨?_, ?_, ?_⟩
  · intro pre post h hpost
    rw [appendRemoteAddr_eq, h, stripPort_colon pre post hpost]
  · intro h
    rw [appendRemoteAddr_eq, stripPort_no_colon _ h]
  · intro h
    rcases colonScan_spec r.RemoteAddr with ⟨_, h2⟩ | ⟨i, pre, _, h2, _, _⟩
    · rw [List.dropWhile_eq_nil_iff] at h2
      have := h2 0x3A (List.mem_reverse.mpr h)
      simp at this
    · have hsplit := List.takeWhile_append_dropWhile (fun c => decide (c ≠ 0x3A))
        r.RemoteAddr.reverse
      rw [h2] at hsplit
      refine ⟨pre.reverse,
        (r.RemoteAddr.reverse.takeWhile (fun c => decide (c ≠ 0x3A))).reverse, ?_, ?_⟩
      · have := congrArg List.reverse hsplit
        simp only [List.reverse_append, List.reverse_cons, List.reverse_reverse,
          List.append_assoc, List.singleton_append] at this
        exact this.symm
      · intro hmem
        have hm := List.mem_reverse.mp hmem
        have := List.mem_takeWhile_imp hm
        simp at this

/-- C12, witness: `203.0.113.5:443` gives `203.0.113.5`, `0.0.0.0:0` gives
`0.0.0.0` and `0.0.0.0` gives `0.0.0.0`. -/
theorem C12_remote_addr_strips_port_witness :
    appendRemoteAddr [] { request2 with RemoteAddr := ascii "203.0.113.5:443" } =
        ascii "203.0.113.5 | " ∧
      appendRemoteAddr [] request1 = ascii "0.0.0.0 | " ∧
      appendRemoteAddr [] request2 = ascii "0.0.0.0 | " := by
  refine ⟨?_, ?_, ?_⟩
  · rw [(C12_remote_addr_strips_port [] { request2 with RemoteAddr := ascii "203.0.113.5:443" }).1
      (ascii "203.0.113.5") (ascii "443") (by decide) (by decide)]
    decide
  · rw [(C12_remote_addr_strips_port [] request1).1 (ascii "0.0.0.0") (ascii "0") (by decide)
      (by decide)]
    decide
  · rw [(C12_remote_addr_strips_port [] request2).2.1 (by decide)]
    decide

theorem tableGet_absent (table : List (Nat × String)) (code : Nat)
    (h : ∀ e ∈ table, e.1 ≠ code) : tableGet table code = none := by
  induction table with
  | nil => rfl
  | cons e rest ih =>
    obtain ⟨k, v⟩ := e
    have hk : k ≠ code := h (k, v) (List.mem_cons_self _ _)
    simp only [tableGet, hk, if_false]
    exact ih (fun e he => h e (List.mem_cons_of_mem _ he))

theorem tlsVersion_get : ∀ e ∈ tlsVersion, tableGet tlsVersion e.1 = some e.2 := by decide

theorem cipherSuite_get : ∀ e ∈ cipherSuite, tableGet cipherSuite e.1 = some e.2 := by decide

/-- C13: the TLS protocol and cipher fields are the table name of the negotiated
code when the request has a TLS state and the table has the code, and the
placeholder `-` when there is no TLS state or the table lacks the code; version
0x0303 gives `TLSv1.2` and cipher 0xc030 gives `ECDHE-RSA-AES256-GCM-SHA384`. -/
theorem C13_tls_fields (b : Bytes) (r : Request) :
    (r.TLS = none →
        appendSSLProtocol b r = b ++ ascii "-" ++ deli ∧
        appendSSLCipher b r = b ++ ascii "-" ++ deli) ∧
      (∀ t name, r.TLS = some t → (t.Version, name) ∈ tlsVersion →
        appendSSLProtocol b r = b ++ ascii name ++ deli) ∧
      (∀ t, r.TLS = some t → (∀ e ∈ tlsVersion, e.1 ≠ t.Version) →
        appendSSLProtocol b r = b ++ ascii "-" ++ deli) ∧
      (∀ t name, r.TLS = some t → (t.CipherSuite, name) ∈ cipherSuite →
        appendSSLCipher b r = b ++ ascii name ++ deli) ∧
      (∀ t, r.TLS = some t → (∀ e ∈ cipherSuite, e.1 ≠ t.CipherSuite) →
        appendSSLCipher b r = b ++ ascii "-" ++ deli) ∧
      (∀ t, r.TLS = some t → t.Version = 0x0303 →
        appendSSLProtocol b r = b ++ ascii "TLSv1.2" ++ deli) ∧
      (∀ t, r.TLS = some t → t.CipherSuite = 0xc030 →
        appendSSLCipher b r = b ++ ascii "ECDHE-RSA-AES256-GCM-SHA384" ++ deli) := by
  have hv : ∀ t name, r.TLS = some t → (t.Version, name) ∈ tlsVersion →
      appendSSLProtocol b r = b ++ ascii name ++ deli := by
    intro t name ht hmem
    have := tlsVersion_get _ hmem
    simp only at this
    simp only [appendSSLProtocol, ht, this]
  have hc : ∀ t name, r.TLS = some t → (t.CipherSuite, name) ∈ cipherSuite →
      appendSSLCipher b r = b ++ ascii name ++ deli := by
    intro t name ht hmem
    have := cipherSuite_get _ hmem
    simp only at this
    simp only [appendSSLCipher, ht, this]
  refine ⟨?_, hv, ?_, hc, ?_, ?_, ?_⟩
  · intro h
    simp only [appendSSLProtocol, appendSSLCipher, h]
    exact ⟨rfl, rfl⟩
  · intro t ht habs
    simp only [appendSSLProtocol, ht, tableGet_absent _ _ habs]
    rfl
  · intro t ht habs
    simp only [appendSSLCipher, ht, tableGet_absent _ _ habs]
    rfl
  · intro t ht h
    exact hv t "TLSv1.2" ht (by rw [h]; decide)
  · intro t ht h
    exact hc t "ECDHE-RSA-AES256-GCM-SHA384" ht (by rw [h]; decide)

/-- C13, witness: the TLS state of `TestLoggerOutput_1`, the absent state of
`TestLoggerOutput_2`, and a version the table does not have. -/
theorem C13_tls_fields_witness :
    appendSSLProtocol [] request1 = ascii "TLSv1.2 | " ∧
      appendSSLCipher [] request1 = ascii "ECDHE-RSA-AES256-GCM-SHA384 | " ∧
      appendSSLProtocol [] request2 = ascii "- | " ∧
      appendSSLCipher [] request2 = ascii "- | " ∧
      appendSSLProtocol []
        { request2 with TLS := some { Version := 0x0306, CipherSuite := 0 } } = ascii "- | " := by
  refine ⟨?_, ?_, ?_, ?_, ?_⟩
  · rw [(C13_tls_fields [] request1).2.2.2.2.2.1 _ rfl rfl]
    decide
  · rw [(C13_tls_fields [] request1).2.2.2.2.2.2 _ rfl rfl]
    decide
  · rw [((C13_tls_fields [] request2).1 rfl).1]
    decide
  · rw [((C13_tls_fields [] request2).1 rfl).2]
    decide
  · rw [(C13_tls_fields [] { request2 with TLS := some { Version := 0x0306, CipherSuite := 0 } }
      ).2.2.1 _ rfl (by decide)]
    decide

/-- C14: `appendRequest` returns the accumulator followed by the method, a
space, the escaped path (at most 128 bytes of it), a space, the protocol and the
delimiter; method and protocol are copied as they are.  Method `GET`, path `ä`
and protocol `HTTP/1.1` give `GET .. HTTP/1.1`. -/
theorem C14_request_line (b : Bytes) (r : Request) :
    appendRequest b r =
        b ++ r.Method ++ ascii " " ++ (r.URL.Path.take 128).map Spec.esc ++ ascii " " ++ r.Proto
          ++ ascii " | " ∧
      appendRequest [] request1 = ascii "GET .. HTTP/1.1 | " := by
  refine ⟨?_, by decide⟩
  rw [appendRequest_eq]
  simp only [Spec.escape, List.append_assoc]
  rfl

/-- C17, the code at the failing input: on the accumulator `x`,
`appendAccessTime` gives `x`, then `x` again, then the time and the delimiter;
on every accumulator `b` it gives `b ++ b ++ RFC3339(t) ++ " | "`, which is
`b ++ RFC3339(t) ++ " | "` only on the empty accumulator. -/
theorem C17_access_time_repeats_accumulator :
    appendAccessTime (ascii "x") clock0 = ascii "xx2019-09-05T07:08:09+02:00 | " ∧
      appendAccessTime (ascii "x") clock0 ≠ ascii "x" ++ RFC3339 clock0 ++ ascii " | " ∧
      (∀ (b : Bytes) (t : Time), appendAccessTime b t = b ++ b ++ RFC3339 t ++ deli) ∧
      (∀ t : Time, appendAccessTime [] t = RFC3339 t ++ ascii " | ") := by
  refine ⟨by decide, by decide, ?_, ?_⟩
  · intro b t
    simp [appendAccessTime, Time.AppendFormat]
  · intro t
    rw [appendAccessTime_nil]
    rfl

/-- C20: when Basic Authentication decodes with user `u`, `appendRemoteUser`
returns `b ++ escape(u) ++ " | "` (at most 128 bytes of `u`, each escaped; an
empty user gives an empty field); otherwise it returns `b ++ "-" ++ " | "`. -/
theorem C20_remote_user_escaped (b : Bytes) (r : Request) :
    (∀ u pw, r.BasicAuth = some (u, pw) →
        appendRemoteUser b r = b ++ (u.take 128).map Spec.esc ++ ascii " | ") ∧
      (∀ pw, r.BasicAuth = some ([], pw) → appendRemoteUser b r = b ++ ascii " | ") ∧
      (r.BasicAuth = none → appendRemoteUser b r = b ++ ascii "-" ++ ascii " | ") := by
  have h1 : ∀ u pw, r.BasicAuth = some (u, pw) →
      appendRemoteUser b r = b ++ (u.take 128).map Spec.esc ++ ascii " | " := by
    intro u pw h
    simp only [appendRemoteUser, h, concat_eq, Spec.escape]
    rfl
  refine ⟨h1, ?_, ?_⟩
  · intro pw h
    rw [h1 [] pw h]
    simp
  · intro h
    simp only [appendRemoteUser, h]
    rfl

/-- C20, witness: the Authorization header of `TestLoggerOutput_1` decodes to
user `user`, logged as `user`; `TestLoggerOutput_2` has none and logs `-`; a
user name with a pipe and a newline is logged with periods. -/
theorem C20_remote_user_escaped_witness :
    parseBasicAuth (ascii "Basic dXNlcjpwYXNz") = some (ascii "user", ascii "pass") ∧
      request1.BasicAuth = parseBasicAuth (ascii "Basic dXNlcjpwYXNz") ∧
      appendRemoteUser [] request1 = ascii "user | " ∧
      appendRemoteUser [] request2 = ascii "- | " ∧
      appendRemoteUser [] { request2 with BasicAuth := some (ascii "a|b\nc", []) } =
        ascii "a.b.c | " := by
  refine ⟨by decide, by decide, ?_, ?_, ?_⟩
  · rw [(C20_remote_user_escaped [] request1).1 (ascii "user") (ascii "pass") rfl]
    decide
  · rw [(C20_remote_user_escaped [] request2).2.2 rfl]
    decide
  · rw [(C20_remote_user_escaped [] { request2 with BasicAuth := some (ascii "a|b\nc", []) }).1
      (ascii "a|b\nc") [] rfl]
    decide

/-! ## The claims on the middleware -/

/-- C15, as the claim states it, fails: after `d1 = Logger(1)` and then
`d2 = Logger(2)`, a request served through `d1(next)` writes its line to sink 2
and nothing to sink 1. -/
theorem C15_counterexample_line_goes_to_last_sink :
    ((Logger 1 state0).1 handler1 (Logger 2 (Logger 1 state0).2).2 testResponseWriter request1
        clock0 1234).map (fun x => x.1.out.map Prod.fst) = some [2] := by
  decide

/-- C15, amended: the sink is one package variable, set by every call of
`Logger`, and every decorator is the same function `newHandlerFunc`: after
`d1 = Logger(w1)` and then `d2 = Logger(w2)`, a request served through `d1(next)`
and one served through `d2(next)` both write their line to `w2`, and nothing is
written to `w1` unless it is the same sink. -/
theorem C15_decorators_share_the_last_sink (w1 w2 : Sink) (st : State) (next : Handler)
    (w : ResponseWriter) (r : Request) (now : Time) (since : Int) (res : responseWriter)
    (hret : next.ServeHTTP (observe w) = some res) (hok : Spec.HeadersOk r) :
    (Logger w1 st).1 = newHandlerFunc ∧ (Logger w2 (Logger w1 st).2).1 = newHandlerFunc ∧
      (Logger w1 st).1 next (Logger w2 (Logger w1 st).2).2 w r now since =
        some ({ sink := some w2,
                out := st.out ++ [(w2, Spec.line (Spec.record r res now since))] }, res) ∧
      (Logger w2 (Logger w1 st).2).1 next (Logger w2 (Logger w1 st).2).2 w r now since =
        some ({ sink := some w2,
                out := st.out ++ [(w2, Spec.line (Spec.record r res now since))] }, res) ∧
      (w1 ≠ w2 →
        (st.out ++ [(w2, Spec.line (Spec.record r res now since))]).filter
            (fun e => decide (e.1 = w1)) =
          st.out.filter (fun e => decide (e.1 = w1))) := by
  have h : newHandlerFunc next (Logger w2 (Logger w1 st).2).2 w r now since =
      some ({ sink := some w2,
              out := st.out ++ [(w2, Spec.line (Spec.record r res now since))] }, res) := by
    rw [newHandlerFunc_eq next _ w r now since res w2 hret hok rfl]
    rfl
  refine ⟨rfl, rfl, h, h, ?_⟩
  intro hne
  rw [List.filter_append]
  simp [Ne.symm hne]

/-- C15, witness: sinks 1 and 2 and the request of `TestLoggerOutput_1`. -/
theorem C15_decorators_share_the_last_sink_witness :
    handler1.ServeHTTP (observe testResponseWriter) =
        some ((observe testResponseWriter).Write []).1.Header.2 ∧
      Spec.HeadersOk request1 ∧
      ((Logger 1 state0).1 handler1 (Logger 2 (Logger 1 state0).2).2 testResponseWriter
        request1 clock0 1234).map (fun x => x.1.out) =
        some [(2, Spec.line (Spec.record request1
          ((observe testResponseWriter).Write []).1.Header.2 clock0 1234))] := by
  refine ⟨rfl, by decide, ?_⟩
  rw [(C15_decorators_share_the_last_sink 1 2 state0 handler1 testResponseWriter request1 clock0
    1234 ((observe testResponseWriter).Write []).1.Header.2 rfl (by decide)).2.2.1]
  rfl

theorem line_length (x : Spec.Record) :
    (Spec.line x).length = (x.toList.map List.length).sum + 37 := by
  rw [line_eq]
  simp only [Spec.Record.toList, List.length_append, List.map_cons, List.map_nil, List.sum_cons,
    List.sum_nil, List.length_cons, List.length_nil, deli]
  omega

theorem headerValue_length_le (s : Option (List Bytes)) : (Spec.headerValue s).length ≤ 128 := by
  unfold Spec.headerValue
  split
  · exact escape_length_le _
  · simp

/-- C18, as the claim states it, fails: a request with a path and four header
values of 128 bytes each gives a line of 764 bytes, more than the 512 bytes of a
pooled line buffer. -/
theorem C18_counterexample_line_longer_than_buffer :
    (logLine requestLong (observe testResponseWriter) clock0 1234).map List.length = some 764 ∧
      0x200 < 764 := by
  refine ⟨?_, by decide⟩
  rw [logLine_eq _ _ _ _ (by decide)]
  simp only [Option.map_some', line_length]
  decide

/-- C18, amended: the emitted line, newline included, is 37 bytes longer than
its 13 field values together, so it is at most 512 bytes exactly when the field
values total at most 475 bytes; the six escaped fields hold at most 128 bytes
each, while method, protocol and peer address are copied whole. -/
theorem C18_line_length (r : Request) (res : responseWriter) (now : Time) (since : Int)
    (line : Bytes) (h : logLine r res now since = some line) :
    line.length = ((Spec.record r res now since).toList.map List.length).sum + 37 ∧
      (line.length ≤ 0x200 ↔
        ((Spec.record r res now since).toList.map List.length).sum ≤ 475) ∧
      (Spec.record r res now since).remoteUser.length ≤ 128 ∧
      (Spec.record r res now since).request.length =
        r.Method.length + (min r.URL.Path.length 128) + r.Proto.length + 2 ∧
      (Spec.record r res now since).referer.length ≤ 128 ∧
      (Spec.record r res now since).forwardedFor.length ≤ 128 ∧
      (Spec.record r res now since).userAgent.length ≤ 128 ∧
      (Spec.record r res now since).requestID.length ≤ 128 := by
  obtain ⟨_, hline⟩ := logLine_some r res now since line h
  have hlen := line_length (Spec.record r res now since)
  rw [← hline] at hlen
  refine ⟨hlen, ?_, ?_, ?_, headerValue_length_le _, headerValue_length_le _,
    headerValue_length_le _, headerValue_length_le _⟩
  · rw [hlen]
    constructor <;> intro h2 <;> omega
  · simp only [Spec.record]
    rcases r.BasicAuth with _ | ⟨u, pw⟩
    · simp
    · exact escape_length_le _
  · simp only [Spec.record, Spec.escape, List.length_append, List.length_map, List.length_take,
      List.length_cons, List.length_nil]
    omega

/-- C18, witness: the line of `TestLoggerOutput_1` has 110 bytes. -/
theorem C18_line_length_witness :
    logLine request1 ((observe testResponseWriter).Write []).1 clock0 1234 =
        some (ascii ("2019-09-05T07:08:09+02:00 | 0.0.0.0 | user | GET .. HTTP/1.1 | 200 " ++
          "| b | c | d | TLSv1.2 | ECDHE-RSA-AES256-GCM-SHA384 | 42 | 0.000 | ~..\n")) ∧
      (ascii ("2019-09-05T07:08:09+02:00 | 0.0.0.0 | user | GET .. HTTP/1.1 | 200 " ++
          "| b | c | d | TLSv1.2 | ECDHE-RSA-AES256-GCM-SHA384 | 42 | 0.000 | ~..\n")).length ≤
        0x200 := by
  have h : logLine request1 ((observe testResponseWriter).Write []).1 clock0 1234 =
      some (ascii ("2019-09-05T07:08:09+02:00 | 0.0.0.0 | user | GET .. HTTP/1.1 | 200 " ++
        "| b | c | d | TLSv1.2 | ECDHE-RSA-AES256-GCM-SHA384 | 42 | 0.000 | ~..\n")) := by
    decide
  refine ⟨h, ?_⟩
  rw [(C18_line_length request1 ((observe testResponseWriter).Write []).1 clock0 1234 _ h).1]
  decide

theorem appendFields_some (r : Request) (res : responseWriter) (now : Time) (since : Int)
    (b : Bytes) (h : appendFields r res now since = some b) :
    Spec.HeadersOk r ∧ b = (Spec.line (Spec.record r res now since)).dropLast ++ deli := by
  by_cases hok : Spec.HeadersOk r
  · rw [appendFields_eq r res now since hok] at h
    exact ⟨hok, (Option.some.inj h).symm⟩
  · rw [appendFields_none r res now since hok] at h
    exact absurd h (by simp)

theorem line_dropLast_ends (x : Spec.Record) :
    ∃ y, (Spec.line x).dropLast = y ++ x.requestID := by
  rw [line_eq, List.dropLast_concat]
  exact ⟨_, rfl⟩

/-- C19: once the 13 extractors have run, the accumulator has at least 3 bytes
and ends in the delimiter `" | "`; the index `len(b) - 3` is in range, and the
slice that goes to the sink is the accumulator without its last 3 bytes,
followed by the newline: all of the 13th field is kept.  The extractors do run
to the end when each logged header that is present has a first value. -/
theorem C19_line_end_in_bounds (r : Request) (res : responseWriter) (now : Time)
    (since : Int) :
    (Spec.HeadersOk r → ∃ b, appendFields r res now since = some b) ∧
      ∀ b, appendFields r res now since = some b →
        3 ≤ b.length ∧ b.drop (b.length - 3) = ascii " | " ∧
          (0 ≤ (b.length : Int) - (deli.length : Int) ∧
            (b.length : Int) - (deli.length : Int) < (b.length : Int)) ∧
          terminate b = some (b.take (b.length - 3) ++ [0x0a]) ∧
          ∃ y, b.take (b.length - 3) = y ++ (Spec.record r res now since).requestID := by
  refine ⟨fun hok => ⟨_, appendFields_eq r res now since hok⟩, ?_⟩
  intro b h
  obtain ⟨_, hb⟩ := appendFields_some r res now since b h
  have hl : b.length = (Spec.line (Spec.record r res now since)).dropLast.length + 3 := by
    rw [hb]; simp [deli]
  have hsub : b.length - 3 = (Spec.line (Spec.record r res now since)).dropLast.length := by
    omega
  have htake : b.take (b.length - 3) = (Spec.line (Spec.record r res now since)).dropLast := by
    rw [hsub, hb, List.take_left]
  refine ⟨by omega, ?_, ?_, ?_, ?_⟩
  · rw [hsub, hb, List.drop_left]
    rfl
  · have hd : (deli.length : Int) = 3 := rfl
    rw [hd]
    omega
  · rw [htake, hb, terminate_append_deli]
  · rw [htake]
    exact line_dropLast_ends _

/-- C19, witness: the accumulator of `TestLoggerOutput_2` after the 13
extractors, and the line made of it. -/
theorem C19_line_end_in_bounds_witness :
    appendFields request2 (observe testResponseWriter) clock0 1234 =
        some (ascii ("2019-09-05T07:08:09+02:00 | 0.0.0.0 | - | GET a HTTP/1.1 | 0 " ++
          "| - | - | - | - | - | 0 | 0.000 | - | ")) ∧
      terminate (ascii ("2019-09-05T07:08:09+02:00 | 0.0.0.0 | - | GET a HTTP/1.1 | 0 " ++
          "| - | - | - | - | - | 0 | 0.000 | - | ")) =
        some (ascii ("2019-09-05T07:08:09+02:00 | 0.0.0.0 | - | GET a HTTP/1.1 | 0 " ++
          "| - | - | - | - | - | 0 | 0.000 | -\n")) := by
  have h : appendFields request2 (observe testResponseWriter) clock0 1234 =
      some (ascii ("2019-09-05T07:08:09+02:00 | 0.0.0.0 | - | GET a HTTP/1.1 | 0 " ++
        "| - | - | - | - | - | 0 | 0.000 | - | ")) := by
    decide
  refine ⟨h, ?_⟩
  rw [((C19_line_end_in_bounds request2 (observe testResponseWriter) clock0 1234).2 _ h).2.2.2.1]
  decide

/-! ## Lemmas on the float64 value of a duration -/

theorem roundHalfEven_bounds (num den : Nat) (hden : 0 < den) :
    2 * (roundHalfEven num den * den) ≤ 2 * num + den ∧
      2 * num ≤ 2 * (roundHalfEven num den * den) + den := by
  have hdm := Nat.div_add_mod num den
  have hr := Nat.mod_lt num hden
  have hq : num / den * den = den * (num / den) := Nat.mul_comm _ _
  have hq1 : (num / den + 1) * den = den * (num / den) + den := by
    rw [Nat.add_mul, Nat.one_mul, hq]
  unfold roundHalfEven
  simp only
  split
  · rw [hq]; constructor <;> omega
  · split
    · rw [hq1]; constructor <;> omega
    · split
      · rw [hq]; constructor <;> omega
      · rw [hq1]; constructor <;> omega

theorem scaleLoop_reaches (num den : Nat) :
    ∀ fuel k, 2 ^ 52 * den ≤ num * 2 ^ (k + fuel) →
      2 ^ 52 * den ≤ num * 2 ^ (scaleLoop num den fuel k) := by
  intro fuel
  induction fuel with
  | zero => intro k h; simpa [scaleLoop] using h
  | succ n ih =>
    intro k h
    unfold scaleLoop
    split
    · apply ih
      have : k + 1 + n = k + (n + 1) := by omega
      rw [this]; exact h
    · omega

theorem f64Round_zero (den : Nat) : f64Round 0 den = (0, 0) := by simp [f64Round]

theorem f64Round_pos (num den : Nat) (hnum : 0 < num) (hden : 0 < den) :
    2 ^ 52 * den ≤ num * 2 ^ (f64Round num den).2 ∧
      2 * ((f64Round num den).1 * den) ≤ 2 * (num * 2 ^ (f64Round num den).2) + den ∧
      2 * (num * 2 ^ (f64Round num den).2) ≤ 2 * ((f64Round num den).1 * den) + den := by
  have hne : num ≠ 0 := by omega
  simp only [f64Round, hne, if_false]
  refine ⟨?_, roundHalfEven_bounds _ _ hden⟩
  apply scaleLoop_reaches
  have h1 : den ≤ 2 ^ den := Nat.le_of_lt (Nat.lt_two_pow den)
  have h2 : (2:Nat) ^ (0 + (53 + den)) = 2 ^ 53 * 2 ^ den := by
    rw [Nat.zero_add, Nat.pow_add]
  rw [h2]
  have h3 : 2 ^ 52 * den ≤ 2 ^ 53 * 2 ^ den := by
    calc 2 ^ 52 * den ≤ 2 ^ 53 * den := Nat.mul_le_mul_right _ (by norm_num)
      _ ≤ 2 ^ 53 * 2 ^ den := Nat.mul_le_mul_left _ h1
  calc 2 ^ 52 * den ≤ 1 * (2 ^ 53 * 2 ^ den) := by omega
    _ ≤ num * (2 ^ 53 * 2 ^ den) := Nat.mul_le_mul_right _ hnum

theorem milli_eq : milli.neg = false ∧ milli.mant = 4611686018427388 ∧ milli.scale = 62 := by
  decide

theorem f64Round_nanos (ns : Nat) (hns : ns < 1000000000) :
    2 * ((f64Round ns 1000000000).1 * 1000000000) ≤
        2 * (ns * 2 ^ (f64Round ns 1000000000).2) + 1000000000 ∧
      2 * (ns * 2 ^ (f64Round ns 1000000000).2) ≤
        2 * ((f64Round ns 1000000000).1 * 1000000000) + 1000000000 ∧
      (f64Round ns 1000000000).1 ≤ 2 ^ (f64Round ns 1000000000).2 ∧
      (ns = 0 → (f64Round ns 1000000000).1 = 0 ∧ (f64Round ns 1000000000).2 = 0) ∧
      (0 < ns → 2 ^ 52 ≤ 2 ^ (f64Round ns 1000000000).2 ∧ 0 < (f64Round ns 1000000000).1) := by
  rcases Nat.eq_zero_or_pos ns with h0 | hpos
  · subst h0
    rw [f64Round_zero]
    simp
  · obtain ⟨hp, ha, hb⟩ := f64Round_pos ns 1000000000 hpos (by norm_num)
    generalize (f64Round ns 1000000000).1 = qm at *
    generalize (2:Nat) ^ (f64Round ns 1000000000).2 = Kq at *
    have hmul : ns * Kq ≤ 999999999 * Kq := Nat.mul_le_mul_right _ (by omega)
    have hKq : 2 ^ 52 ≤ Kq := by
      by_contra hlt
      have : Kq < 2 ^ 52 := by omega
      norm_num at hp this ⊢
      omega
    norm_num at hp hKq
    refine ⟨ha, hb, by omega, by omega, fun _ => ⟨by norm_num; exact hKq, by omega⟩⟩


theorem Seconds_facts (a : Nat) :
    ∃ qm Kq : Nat, 0 < Kq ∧
      2 * (qm * 1000000000) ≤ 2 * (a % 1000000000 * Kq) + 1000000000 ∧
      2 * (a % 1000000000 * Kq) ≤ 2 * (qm * 1000000000) + 1000000000 ∧
      qm ≤ Kq ∧
      (a % 1000000000 = 0 → qm = 0 ∧ Kq = 1) ∧
      (0 < a % 1000000000 → 2 ^ 52 ≤ Kq ∧ 0 < qm) ∧
      (Seconds (a : Int)).neg = false ∧
      (a / 1000000000 * Kq + qm = 0 →
        (Seconds (a : Int)).mant = 0 ∧ (Seconds (a : Int)).scale = 0) ∧
      (0 < a / 1000000000 * Kq + qm →
        2 ^ 52 * Kq ≤ (a / 1000000000 * Kq + qm) * 2 ^ (Seconds (a : Int)).scale ∧
        2 * ((Seconds (a : Int)).mant * Kq) ≤
          2 * ((a / 1000000000 * Kq + qm) * 2 ^ (Seconds (a : Int)).scale) + Kq ∧
        2 * ((a / 1000000000 * Kq + qm) * 2 ^ (Seconds (a : Int)).scale) ≤
          2 * ((Seconds (a : Int)).mant * Kq) + Kq) := by
  have hns : a % 1000000000 < 1000000000 := Nat.mod_lt _ (by norm_num)
  obtain ⟨h1, h2, h3, h4, h5⟩ := f64Round_nanos (a % 1000000000) hns
  refine ⟨(f64Round (a % 1000000000) 1000000000).1,
    2 ^ (f64Round (a % 1000000000) 1000000000).2, Nat.pow_pos (by norm_num), h1, h2, h3, ?_, h5,
    ?_, ?_, ?_⟩
  · intro h0
    obtain ⟨ha, hb⟩ := h4 h0
    exact ⟨ha, by rw [hb]; rfl⟩
  · simp [Seconds]
  · intro hz
    simp only [Seconds, Int.natAbs_ofNat]
    rw [hz, f64Round_zero]
    exact ⟨rfl, rfl⟩
  · intro hpos
    simp only [Seconds, Int.natAbs_ofNat]
    exact f64Round_pos _ _ hpos (Nat.pow_pos (by norm_num))


theorem ge_milli_iff (x : F64) :
    x.ge milli = true ↔ x.neg = false ∧ 4611686018427388 * 2 ^ x.scale ≤ x.mant * 2 ^ 62 := by
  obtain ⟨_, hm, hs⟩ := milli_eq
  simp [F64.ge, hm, hs]

theorem Seconds_neg (d : Int) (h : d < 0) : (Seconds d).ge milli = false := by
  simp [F64.ge, Seconds, h]

theorem Seconds_lt_milli (a : Nat) (h : a < 1000000) : (Seconds (a : Int)).ge milli = false := by
  rw [Bool.eq_false_iff, Ne, ge_milli_iff]
  rintro ⟨_, hge⟩
  obtain ⟨qm, Kq, hKq, h1a, _, hqm, hz, hp, _, hzero, hpos⟩ := Seconds_facts a
  have hsec : a / 1000000000 = 0 := Nat.div_eq_of_lt (by omega)
  have hns : a % 1000000000 = a := Nat.mod_eq_of_lt (by omega)
  rw [hsec] at hzero hpos
  rw [hns] at h1a hz hp
  simp only [zero_mul, zero_add] at hzero hpos
  rcases Nat.eq_zero_or_pos a with h0 | ha
  · obtain ⟨hq0, _⟩ := hz h0
    obtain ⟨hm, hs⟩ := hzero hq0
    rw [hm, hs] at hge
    norm_num at hge
  · obtain ⟨hKq52, hqpos⟩ := hp ha
    obtain ⟨hP, h2a, _⟩ := hpos hqpos
    generalize (Seconds (a : Int)).mant = m at *
    generalize (2:Nat) ^ (Seconds (a : Int)).scale = K at *
    norm_num at hKq52 hP
    have hK : 4503599627370496 ≤ K := by
      have h1 : qm * K ≤ Kq * K := Nat.mul_le_mul_right _ hqm
      have h2 : Kq * 4503599627370496 ≤ Kq * K := by linarith
      exact Nat.le_of_mul_le_mul_left h2 hKq
    have e1 : K * (2 * (qm * 1000000000)) ≤ K * (2 * (a * Kq) + 1000000000) :=
      Nat.mul_le_mul_left _ h1a
    have e2 : a * (Kq * K) ≤ 999999 * (Kq * K) := Nat.mul_le_mul_right _ (by omega)
    have e3 : 1000000000 * K ≤ Kq * K := Nat.mul_le_mul_right _ (by omega)
    have e4 : 1000000000 * Kq ≤ K * Kq := Nat.mul_le_mul_right _ (by omega)
    have e5 : Kq * (m * 1000) ≤ Kq * K := by nlinarith
    have e6 : m * 1000 ≤ K := Nat.le_of_mul_le_mul_left e5 hKq
    omega


theorem Seconds_ge_milli (a : Nat) (h : 1000000 ≤ a) : (Seconds (a : Int)).ge milli = true := by
  rcases Nat.eq_or_lt_of_le h with heq | hlt
  · subst heq
    decide
  rw [ge_milli_iff]
  obtain ⟨qm, Kq, hKq, _, h1b, hqm, _, hp, hneg, _, hpos⟩ := Seconds_facts a
  refine ⟨hneg, ?_⟩
  rcases Nat.eq_zero_or_pos (a / 1000000000) with hsec | hsec
  · have ha9 : a < 1000000000 := by
      by_contra hge
      have : 1 ≤ a / 1000000000 := Nat.div_pos (by omega) (by norm_num)
      omega
    have hns : a % 1000000000 = a := Nat.mod_eq_of_lt ha9
    rw [hsec] at hpos
    rw [hns] at h1b hp
    simp only [zero_mul, zero_add] at hpos
    obtain ⟨hKq52, hqpos⟩ := hp (by omega)
    obtain ⟨hP, _, h2b⟩ := hpos hqpos
    generalize (Seconds (a : Int)).mant = m at *
    generalize (2:Nat) ^ (Seconds (a : Int)).scale = K at *
    norm_num at hKq52 hP
    have hK : 4503599627370496 ≤ K := by
      have h1 : qm * K ≤ Kq * K := Nat.mul_le_mul_right _ hqm
      have h2 : Kq * 4503599627370496 ≤ Kq * K := by linarith
      exact Nat.le_of_mul_le_mul_left h2 hKq
    have e1 : K * (2 * (a * Kq)) ≤ K * (2 * (qm * 1000000000) + 1000000000) :=
      Nat.mul_le_mul_left _ h1b
    have e2 : 1000001 * (Kq * K) ≤ a * (Kq * K) := Nat.mul_le_mul_right _ (by omega)
    have e3 : 4194304 * 1000000000 * K ≤ Kq * K := Nat.mul_le_mul_right _ (by omega)
    have e4 : 4194304 * 1000000000 * Kq ≤ K * Kq := Nat.mul_le_mul_right _ (by omega)
    have e5 : Kq * (4194308194303 * K) ≤ Kq * (4194304 * 1000000000 * m) := by nlinarith
    have e6 : 4194308194303 * K ≤ 4194304 * 1000000000 * m :=
      Nat.le_of_mul_le_mul_left e5 hKq
    omega
  · have hnum : 0 < a / 1000000000 * Kq + qm := by
      have : 0 < a / 1000000000 * Kq := Nat.mul_pos hsec hKq
      omega
    obtain ⟨_, _, h2b⟩ := hpos hnum
    generalize (Seconds (a : Int)).mant = m at *
    generalize (2:Nat) ^ (Seconds (a : Int)).scale = K at *
    generalize a / 1000000000 = sec at *
    have e1 : 1 * (Kq * K) ≤ sec * (Kq * K) := Nat.mul_le_mul_right _ hsec
    have e2 : Kq * (2 * K) ≤ Kq * (2 * m + 1) := by nlinarith
    have e3 : 2 * K ≤ 2 * m + 1 := Nat.le_of_mul_le_mul_left e2 hKq
    omega


theorem thousandths_accurate (a : Nat) (h1 : 0 < a) (h2 : a < 2 ^ 63) :
    2 * (roundHalfEven ((Seconds (a : Int)).mant * 1000) (2 ^ (Seconds (a : Int)).scale)
        * 1000000) ≤ 2 * a + 1003816 ∧
      2 * a ≤ 2 * (roundHalfEven ((Seconds (a : Int)).mant * 1000)
        (2 ^ (Seconds (a : Int)).scale) * 1000000) + 1003816 := by
  obtain ⟨qm, Kq, hKq, h1a, h1b, hqm, hz, hp, _, _, hpos⟩ := Seconds_facts a
  have hdm := Nat.div_add_mod a 1000000000
  have hsec : a / 1000000000 + 1 ≤ 17179869184 := by
    norm_num at h2
    omega
  have hnum : 0 < a / 1000000000 * Kq + qm := by
    rcases Nat.eq_zero_or_pos (a % 1000000000) with h0 | hns
    · have hs : 0 < a / 1000000000 := by omega
      have : 0 < a / 1000000000 * Kq := Nat.mul_pos hs hKq
      omega
    · have := (hp hns).2
      omega
  obtain ⟨hP, h2a, h2b⟩ := hpos hnum
  have hKpos : 0 < 2 ^ (Seconds (a : Int)).scale := Nat.pow_pos (by norm_num)
  obtain ⟨h3a, h3b⟩ := roundHalfEven_bounds ((Seconds (a : Int)).mant * 1000)
    (2 ^ (Seconds (a : Int)).scale) hKpos
  have g1 : 2000 * (qm * 1000000000) ≤ 2000 * (a % 1000000000 * Kq) + Kq ∧
      2000 * (a % 1000000000 * Kq) ≤ 2000 * (qm * 1000000000) + Kq := by
    rcases Nat.eq_zero_or_pos (a % 1000000000) with h0 | hns
    · obtain ⟨hq0, hk1⟩ := hz h0
      rw [h0, hq0, hk1]
      norm_num
    · have := (hp hns).1
      norm_num at this
      constructor <;> omega
  obtain ⟨g1a, g1b⟩ := g1
  generalize roundHalfEven ((Seconds (a : Int)).mant * 1000) (2 ^ (Seconds (a : Int)).scale)
    = n at *
  generalize (Seconds (a : Int)).mant = m at *
  generalize (2:Nat) ^ (Seconds (a : Int)).scale = K at *
  generalize a / 1000000000 = sec at *
  generalize a % 1000000000 = ns at *
  norm_num at hP
  have hK : 262144 ≤ K := by
    have e1 : sec * Kq + qm ≤ 17179869184 * Kq := by nlinarith
    have e2 : (sec * Kq + qm) * K ≤ 17179869184 * Kq * K := Nat.mul_le_mul_right _ e1
    have e3 : Kq * 262144 ≤ Kq * K := by nlinarith
    exact Nat.le_of_mul_le_mul_left e3 hKq
  have hKK : 0 < K * Kq := Nat.mul_pos hKpos hKq
  have a4 : Kq * 1000000000 ≤ Kq * (3815 * K) := Nat.mul_le_mul_left _ (by omega)
  constructor
  · have a1 : Kq * (2 * (n * K)) ≤ Kq * (2 * (m * 1000) + K) := Nat.mul_le_mul_left _ h3a
    have a3 : K * (2000 * (qm * 1000000000)) ≤ K * (2000 * (ns * Kq) + Kq) :=
      Nat.mul_le_mul_left _ g1a
    have e : (K * Kq) * (2 * (n * 1000000) * 1000) ≤
        (K * Kq) * ((2 * a + 1003816) * 1000) := by
      rw [← hdm]
      linarith
    have e2 := Nat.le_of_mul_le_mul_left e hKK
    omega
  · have a1 : Kq * (2 * (m * 1000)) ≤ Kq * (2 * (n * K) + K) := Nat.mul_le_mul_left _ h3b
    have a3 : K * (2000 * (ns * Kq)) ≤ K * (2000 * (qm * 1000000000) + Kq) :=
      Nat.mul_le_mul_left _ g1b
    have e : (K * Kq) * (2 * a * 1000) ≤
        (K * Kq) * ((2 * (n * 1000000) + 1003816) * 1000) := by
      rw [← hdm]
      linarith
    have e2 := Nat.le_of_mul_le_mul_left e hKK
    omega

/-! ## Lemmas on decimal digits -/

theorem digitsLoop_decimal (fuel : Nat) :
    ∀ (u : Nat) (acc : Bytes), u ≤ fuel →
      (digitsLoop fuel u acc).foldl (fun a c => a * 10 + (c - 0x30)) 0 =
        acc.foldl (fun a c => a * 10 + (c - 0x30)) u := by
  induction fuel with
  | zero =>
    intro u acc hu
    have : u = 0 := by omega
    subst this
    simp [digitsLoop]
  | succ n ih =>
    intro u acc hu
    unfold digitsLoop
    split
    · rw [ih (u / 10) _ (by omega)]
      simp only [List.foldl_cons]
      congr 1
      omega
    · simp only [List.foldl_cons]
      congr 1
      omega

theorem natDigits_decimal (n : Nat) : Spec.decimal (natDigits n) = n := by
  unfold Spec.decimal natDigits
  rw [digitsLoop_decimal n n [] (Nat.le_refl _)]
  rfl

theorem digitsLoop_length_le (fuel : Nat) :
    ∀ (u : Nat) (acc : Bytes) (j : Nat), u < 10 ^ (j + 1) →
      (digitsLoop fuel u acc).length ≤ acc.length + j + 1 := by
  induction fuel with
  | zero =>
    intro u acc j _
    simp [digitsLoop]
  | succ n ih =>
    intro u acc j hu
    unfold digitsLoop
    split
    · rename_i h10
      rcases j with _ | j2
      · norm_num at hu
        omega
      · have hu2 : u / 10 < 10 ^ (j2 + 1) := by
          rw [Nat.div_lt_iff_lt_mul (by norm_num)]
          calc u < 10 ^ (j2 + 1 + 1) := hu
            _ = 10 ^ (j2 + 1) * 10 := by rw [Nat.pow_succ]
        have := ih (u / 10) ((0x30 + (u - u / 10 * 10)) :: acc) j2 hu2
        simp only [List.length_cons] at this
        omega
    · simp only [List.length_cons]
      omega

theorem natDigits_digit (n : Nat) : ∀ c ∈ natDigits n, 0x30 ≤ c ∧ c ≤ 0x39 :=
  digitsLoop_digit n n [] (Nat.le_refl _) (by simp)

theorem pad3_length (x : Nat) (hx : x < 1000) : (pad3 x).length = 3 := by
  have h := digitsLoop_length_le x x [] 2 (by norm_num; exact hx)
  simp only [List.length_nil] at h
  unfold pad3
  simp only [List.length_append, List.length_replicate]
  unfold natDigits
  omega

theorem pad3_digit (x : Nat) : ∀ c ∈ pad3 x, 0x30 ≤ c ∧ c ≤ 0x39 := by
  intro c hc
  simp only [pad3, List.mem_append, List.mem_replicate] at hc
  rcases hc with hc | hc
  · rw [hc.2]; decide
  · exact natDigits_digit x c hc

theorem foldl_zeros (j : Nat) :
    (List.replicate j 0x30).foldl (fun a c => a * 10 + (c - 0x30)) 0 = 0 := by
  induction j with
  | zero => rfl
  | succ n ih =>
    simp only [List.replicate_succ, List.foldl_cons]
    exact ih

theorem pad3_decimal (x : Nat) : Spec.decimal (pad3 x) = x := by
  have h := natDigits_decimal x
  unfold Spec.decimal at h ⊢
  unfold pad3
  rw [List.foldl_append, foldl_zeros]
  exact h

/-! ## The claim on the request time -/

/-- C16: for an elapsed duration below 1 millisecond (zero and negative ones
included) `appendRequestTime` appends exactly `0.000` and the delimiter; for a
duration of at least 1 millisecond it appends the duration in seconds in fixed
notation, the digits of the whole seconds, a point and exactly 3 digits, then
the delimiter; the thousandths printed differ from the duration by at most half
a millisecond and 2 microseconds (`since` is in nanoseconds, an int64). -/
theorem C16_request_time (b : Bytes) (since : Int) :
    (since < 1000000 → appendRequestTime b since = b ++ ascii "0.000" ++ ascii " | ") ∧
      (1000000 ≤ since → ∃ n : Nat,
        appendRequestTime b since =
          b ++ natDigits (n / 1000) ++ ascii "." ++ pad3 (n % 1000) ++ ascii " | " ∧
        (∀ c ∈ natDigits (n / 1000), 0x30 ≤ c ∧ c ≤ 0x39) ∧
        Spec.decimal (natDigits (n / 1000)) = n / 1000 ∧
        (pad3 (n % 1000)).length = 3 ∧
        (∀ c ∈ pad3 (n % 1000), 0x30 ≤ c ∧ c ≤ 0x39) ∧
        Spec.decimal (pad3 (n % 1000)) = n % 1000 ∧
        (since < 2 ^ 63 →
          2 * ((n : Int) * 1000000) ≤ 2 * since + 1003816 ∧
          2 * since ≤ 2 * ((n : Int) * 1000000) + 1003816)) := by
  constructor
  · intro h
    have hge : (Seconds since).ge milli = false := by
      rcases lt_or_le since 0 with hneg | hnn
      · exact Seconds_neg since hneg
      · obtain ⟨a, rfl⟩ := Int.eq_ofNat_of_zero_le hnn
        exact Seconds_lt_milli a (by omega)
    simp only [appendRequestTime, hge]
    rfl
  · intro h
    obtain ⟨a, rfl⟩ := Int.eq_ofNat_of_zero_le (by omega : (0 : Int) ≤ since)
    have ha : 1000000 ≤ a := by omega
    have hge := Seconds_ge_milli a ha
    have hneg : (Seconds (a : Int)).neg = false := by simp [Seconds]
    refine ⟨roundHalfEven ((Seconds (a : Int)).mant * 1000) (2 ^ (Seconds (a : Int)).scale),
      ?_, natDigits_digit _, natDigits_decimal _,
      pad3_length _ (Nat.mod_lt _ (by norm_num)), pad3_digit _, pad3_decimal _, ?_⟩
    · simp only [appendRequestTime, hge, AppendFloat3, formatFloat3, hneg]
      simp [ascii, deli, pipe]
    · intro h63
      have h63n : a < 2 ^ 63 := by exact_mod_cast h63
      obtain ⟨hu, hl⟩ := thousandths_accurate a (by omega) h63n
      constructor
      · exact_mod_cast hu
      · exact_mod_cast hl

/-- C16, witness: 1234 ns, as in `TestLoggerOutput_1`, are logged as `0.000`,
and so are 999999 ns and a negative reading; 1 ms is logged as `0.001`; the
second of sleep of `TestLoggerOutput_2`, 1000123456 ns, is logged as `1.000`. -/
theorem C16_request_time_witness :
    appendRequestTime [] 1234 = ascii "0.000 | " ∧
      appendRequestTime [] 999999 = ascii "0.000 | " ∧
      appendRequestTime [] (-5) = ascii "0.000 | " ∧
      appendRequestTime [] 1000000 = ascii "0.001 | " ∧
      appendRequestTime [] 1000123456 = ascii "1.000 | " ∧
      ∃ n : Nat, appendRequestTime [] 1000123456 =
        [] ++ natDigits (n / 1000) ++ ascii "." ++ pad3 (n % 1000) ++ ascii " | " := by
  refine ⟨?_, by decide, by decide, by decide, by decide, ?_⟩
  · rw [(C16_request_time [] 1234).1 (by decide)]
    decide
  · obtain ⟨n, hn, _⟩ := (C16_request_time [] 1000123456).2 (by decide)
    exact ⟨n, hn⟩

end Midas
